import Mathlib

/-!
# Verification of the Calendrier iCalendar codec

Shallow embedding of the RFC 5545 codec of the Calendrier application:

* encoder (`icsExporter`): `escapeText`, `foldLine`, `toICSDate`,
  `toICSDateTime`, `nextDayICS`, `makeUID`, `eventToVEvent`, `eventsToICS`,
  `eventToICS`;
* decoder (`icsImporter`): `unfold`, `unescapeText`, `parseDTValue`,
  `parseICS`.

JavaScript strings are modelled as `List Char`.  JavaScript `Date`
arithmetic (`setDate (getDate () ± 1)` applied to a local-midnight date) is
modelled as proleptic-Gregorian calendar arithmetic on a `Ymd` record, which
is what the engine computes for in-range dates; `new Date (iso)` applied to
an out-of-range component string yields an invalid date, modelled by
`Option`.  Ambient effects of the source (the `uuid` of decoded records, the
`DEFAULT_EVENT_COLOR` / `isHoliday` option merge, and the `new Date ()`
clock read of the `DTSTAMP` line) are claim-irrelevant; the clock read is
made an explicit `today` parameter of the encoder, and the id/color/holiday
fields of decoded records are omitted.
-/

namespace ICS

/-- Decimal digit character, `Char.ofNat (48 + n)` for `n ≤ 9`. -/
def digitChar (n : Nat) : Char := Char.ofNat (48 + n)

/-- Fuel-driven digit renderer; the fuel always suffices at its use in
`natDigits`. -/
def natDigitsAux : Nat → Nat → List Char
  | 0, _ => []
  | fuel + 1, n =>
    if n < 10 then [digitChar n]
    else natDigitsAux fuel (n / 10) ++ [digitChar (n % 10)]

/-- JavaScript `String (n)` for a natural number: decimal digits, no sign. -/
def natDigits (n : Nat) : List Char := natDigitsAux (n + 1) n

/-- JavaScript `s.padStart (2, '0')`. -/
def jsPadStart2 (s : List Char) : List Char :=
  if 2 ≤ s.length then s
  else if s.length = 1 then '0' :: s
  else ['0', '0']

/-- Two-digit decimal rendering, the normal form of
`String (n).padStart (2, '0')` for `n < 100`. -/
def pad2 (n : Nat) : List Char := [digitChar (n / 10), digitChar (n % 10)]

/-- Calendar date, year/month/day. -/
structure Ymd where
  year : Nat
  month : Nat
  day : Nat
deriving DecidableEq, Repr

/-- Gregorian leap-year rule, as computed by the JavaScript engine. -/
def isLeap (y : Nat) : Bool := (y % 4 = 0 && y % 100 ≠ 0) || y % 400 = 0

/-- Length of a month in the proleptic Gregorian calendar. -/
def daysInMonth (y m : Nat) : Nat :=
  if m = 2 then (if isLeap y then 29 else 28)
  else if m = 4 ∨ m = 6 ∨ m = 9 ∨ m = 11 then 30
  else 31

/-- Well-formed date with a four-digit year, the shape every date reaching
the codec's `JS Date` arithmetic has. -/
def validYmd (d : Ymd) : Prop :=
  1000 ≤ d.year ∧ d.year ≤ 9999 ∧ 1 ≤ d.month ∧ d.month ≤ 12 ∧
    1 ≤ d.day ∧ d.day ≤ daysInMonth d.year d.month

instance (d : Ymd) : Decidable (validYmd d) := by
  unfold validYmd
  infer_instance

/-- Next calendar day: the `d.setDate (d.getDate () + 1)` step of
`nextDayICS`. -/
def dateSucc (d : Ymd) : Ymd :=
  if d.day < daysInMonth d.year d.month then ⟨d.year, d.month, d.day + 1⟩
  else if d.month < 12 then ⟨d.year, d.month + 1, 1⟩
  else ⟨d.year + 1, 1, 1⟩

/-- Previous calendar day: the `d.setDate (d.getDate () - 1)` step of the
decoder's exclusive-end correction, on dates after 0000-01-01; the
year-zero underflow, where the engine's signed year becomes -1, is handled
at this function's only call site, `decrementISO`. -/
def datePred (d : Ymd) : Ymd :=
  if 1 < d.day then ⟨d.year, d.month, d.day - 1⟩
  else if 1 < d.month then ⟨d.year, d.month - 1, daysInMonth d.year (d.month - 1)⟩
  else ⟨d.year - 1, 12, 31⟩

/-- Linear key respecting calendar order (months have at most 31 days). -/
def dateKey (d : Ymd) : Nat := d.year * 372 + d.month * 31 + d.day

/-- The template string of the decoder's decrement block and of
`nextDayICS` before dash removal: `yyyy-mm-dd`. -/
def fmtISO (d : Ymd) : List Char :=
  natDigits d.year ++ '-' :: jsPadStart2 (natDigits d.month) ++
    '-' :: jsPadStart2 (natDigits d.day)

/-- The template string of `nextDayICS`: `yyyymmdd`. -/
def fmtICS (d : Ymd) : List Char :=
  natDigits d.year ++ jsPadStart2 (natDigits d.month) ++ jsPadStart2 (natDigits d.day)

/-- Numeric value of a decimal digit character, `none` otherwise. -/
def digitVal (c : Char) : Option Nat :=
  if '0' ≤ c ∧ c ≤ '9' then some (c.toNat - 48) else none

/-- Model of `new Date (s + 'T00:00:00')` on a date-only ISO string: the
engine accepts a four-digit year, two-digit month and day, and yields an
invalid date (here `none`) when a component is out of calendar range. -/
def isoParse (s : List Char) : Option Ymd :=
  match s with
  | [c1, c2, c3, c4, s1, c5, c6, s2, c7, c8] =>
    if s1 = '-' ∧ s2 = '-' then
      match digitVal c1, digitVal c2, digitVal c3, digitVal c4,
            digitVal c5, digitVal c6, digitVal c7, digitVal c8 with
      | some a, some b, some c, some d, some e, some f, some g, some h =>
        let y := ((a * 10 + b) * 10 + c) * 10 + d
        let m := e * 10 + f
        let dd := g * 10 + h
        if 1 ≤ m ∧ m ≤ 12 ∧ 1 ≤ dd ∧ dd ≤ daysInMonth y m then some ⟨y, m, dd⟩
        else none
      | _, _, _, _, _, _, _, _ => none
    else none
  | _ => none

/-- One pass of a global single-character regex replace,
`s.replace (/a/g, r)`. -/
def replaceChar (a : Char) (r : List Char) : List Char → List Char
  | [] => []
  | c :: rest => (if c = a then r else [c]) ++ replaceChar a r rest

/-- Encoder escaping (RFC 5545 §3.3.11): backslash, semicolon, comma,
newline, replaced in that chained order; the empty string is returned as is
(the source's falsy-text guard). -/
def escapeText (text : List Char) : List Char :=
  if text = [] then []
  else replaceChar '\n' ['\\', 'n']
        (replaceChar ',' ['\\', ',']
          (replaceChar ';' ['\\', ';']
            (replaceChar '\\' ['\\', '\\'] text)))

/-- Fuel-driven chunking loop; the fuel always suffices at its use in
`foldParts`. -/
def foldPartsAux : Nat → List Char → List (List Char)
  | _, [] => []
  | 0, _ => []
  | fuel + 1, s => (' ' :: s.take 74) :: foldPartsAux fuel (s.drop 74)

/-- Continuation parts pushed by the `while` loop of `foldLine`: chunks of
74 octets, each prefixed with one space. -/
def foldParts (s : List Char) : List (List Char) := foldPartsAux s.length s

/-- The `parts.join ('\r\n')` of `foldLine` and the final join of
`eventsToICS`. -/
def joinCRLF : List (List Char) → List Char
  | [] => []
  | [l] => l
  | l :: ls => l ++ '\r' :: '\n' :: joinCRLF ls

/-- Fold a long line at 75 octets (RFC 5545 §3.1). -/
def foldLine (line : List Char) : List Char :=
  if line.length ≤ 75 then line
  else joinCRLF (line.take 75 :: foldParts (line.drop 75))

/-- Format `yyyy-MM-dd` as ICS date `YYYYMMDD`: a global regex replace
removing every dash character. -/
def toICSDate (dateISO : List Char) : List Char :=
  dateISO.filter (fun c => ! (c == '-'))

/-- Format date plus time as ICS local datetime `YYYYMMDDTHHMMSS`. -/
def toICSDateTime (dateISO time : List Char) : List Char :=
  toICSDate dateISO ++ 'T' :: (time.filter (fun c => ! (c == ':'))) ++ ['0', '0']

/-- Add one day to an ISO date string and render it as an ICS date, via
JavaScript `Date` arithmetic (invalid dates yield the engine's
`NaN`-rendered template). -/
def nextDayICS (dateISO : List Char) : List Char :=
  match isoParse dateISO with
  | some d => fmtICS (dateSucc d)
  | none => ("NaNNaNNaN").data

/-- Event record handed to the encoder. -/
structure EventRec where
  id : List Char
  title : List Char
  startDate : List Char
  date : List Char
  endDate : List Char
  startTime : List Char
  endTime : List Char
  description : List Char
deriving DecidableEq, Repr

/-- Generate the VEVENT unique identifier. -/
def makeUID (event : EventRec) : List Char := event.id ++ ("@calendrier").data

/-- JavaScript `s.split (':')`. -/
def jsSplitColon : List Char → List (List Char)
  | [] => [[]]
  | c :: rest =>
    if c = ':' then [] :: jsSplitColon rest
    else
      match jsSplitColon rest with
      | [] => [[c]]
      | l :: ls => (c :: l) :: ls

/-- JavaScript `Number (s)` restricted to the shapes the codec feeds it:
the empty string is 0, a decimal-digit string is its value, anything else
(including a missing destructured component) is `NaN`, modelled by `none`. -/
def jsNumber : Option (List Char) → Option Nat
  | none => none
  | some s =>
    s.foldl (fun acc c =>
      match acc, digitVal c with
      | some a, some k => some (a * 10 + k)
      | _, _ => none) (some 0)

/-- JavaScript `String (n)` where `n` may be `NaN`. -/
def jsNumToString : Option Nat → List Char
  | some n => natDigits n
  | none => ("NaN").data

/-- Default one-hour end time of a timed event without `endTime`:
`[h, m] = startTime.split (':').map (Number)`, then
`String (h + 1).padStart (2, '0')` and `String (m).padStart (2, '0')`. -/
def defaultEndTime (startTime : List Char) : List Char :=
  let parts := jsSplitColon startTime
  let h := jsNumber (parts.get? 0)
  let m := jsNumber (parts.get? 1)
  let endH := jsPadStart2 (jsNumToString (h.map (· + 1)))
  let endM := jsPadStart2 (jsNumToString m)
  endH ++ ':' :: endM

/-- Convert a single event to a VEVENT block (list of logical lines).  The
source's ambient `new Date ()` read of the `DTSTAMP` line is the explicit
`today` parameter. -/
def eventToVEvent (today : Ymd) (event : EventRec) : List (List Char) :=
  let startDate := if event.startDate ≠ [] then event.startDate
                   else if event.date ≠ [] then event.date else []
  let endDate := if event.endDate ≠ [] then event.endDate else startDate
  let hasTime := event.startTime ≠ []
  [("BEGIN:VEVENT").data,
   ("UID:").data ++ makeUID event,
   ("DTSTAMP:").data ++ toICSDate (fmtISO today) ++ ("T000000Z").data]
  ++ (if hasTime then
        [("DTSTART:").data ++ toICSDateTime startDate event.startTime,
         if event.endTime ≠ [] then
           ("DTEND:").data ++ toICSDateTime endDate event.endTime
         else
           ("DTEND:").data ++ toICSDateTime startDate (defaultEndTime event.startTime)]
      else
        [("DTSTART;VALUE=DATE:").data ++ toICSDate startDate,
         ("DTEND;VALUE=DATE:").data ++ nextDayICS endDate])
  ++ [("SUMMARY:").data ++ escapeText event.title]
  ++ (if event.description ≠ [] then
        [("DESCRIPTION:").data ++ escapeText event.description]
      else [])
  ++ [("END:VEVENT").data]

/-- Concatenation of a list of line blocks. -/
def concatAll : List (List α) → List α
  | [] => []
  | l :: ls => l ++ concatAll ls

/-- Logical lines of the complete ICS document. -/
def docLines (today : Ymd) (events : List EventRec) : List (List Char) :=
  [("BEGIN:VCALENDAR").data, ("VERSION:2.0").data, ("PRODID:-//Calendrier//FR").data,
   ("CALSCALE:GREGORIAN").data, ("METHOD:PUBLISH").data]
  ++ concatAll (events.map (eventToVEvent today))
  ++ [("END:VCALENDAR").data]

/-- Generate a complete .ics file from a list of events: fold long lines and
join with CRLF, with a trailing CRLF. -/
def eventsToICS (today : Ymd) (events : List EventRec) : List Char :=
  joinCRLF ((docLines today events).map foldLine) ++ ['\r', '\n']

/-- Generate a complete .ics file from a single event. -/
def eventToICS (today : Ymd) (event : EventRec) : List Char :=
  eventsToICS today [event]

/-! ## Decoder (`icsImporter`) -/

/-- Unfold continuation lines (RFC 5545 §3.1): remove every leftmost match
of a line terminator (optional CR then LF) followed by a single space or
tab. -/
def unfold : List Char → List Char
  | [] => []
  | [c] => [c]
  | [c1, c2] => if c1 = '\n' ∧ (c2 = ' ' ∨ c2 = '\t') then [] else [c1, c2]
  | c1 :: c2 :: c3 :: rest =>
    if c1 = '\n' ∧ (c2 = ' ' ∨ c2 = '\t') then unfold (c3 :: rest)
    else if c1 = '\r' ∧ c2 = '\n' ∧ (c3 = ' ' ∨ c3 = '\t') then unfold rest
    else c1 :: unfold (c2 :: c3 :: rest)

/-- One pass of a global regex replace of a backslash followed by a
character satisfying `p`, with replacement `r` (leftmost,
non-overlapping). -/
def replBack (p : Char → Bool) (r : List Char) : List Char → List Char
  | [] => []
  | [c] => [c]
  | c1 :: c2 :: rest =>
    if c1 = '\\' then
      if p c2 then r ++ replBack p r rest
      else c1 :: replBack p r (c2 :: rest)
    else c1 :: replBack p r (c2 :: rest)

/-- Character class of the case-insensitive `n` in the decoder's first
unescaping regex. -/
def pNn (c : Char) : Bool := c == 'n' || c == 'N'

/-- Character class of the comma in the decoder's second unescaping regex. -/
def pComma (c : Char) : Bool := c == ','

/-- Character class of the semicolon in the decoder's third unescaping
regex. -/
def pSemi (c : Char) : Bool := c == ';'

/-- Character class of the backslash in the decoder's fourth unescaping
regex. -/
def pBsl (c : Char) : Bool := c == '\\'

/-- Decoder unescaping: `\n` and `\N` to newline first, then `\,`, then
`\;`, then double backslash, as chained global replaces. -/
def unescapeText (text : List Char) : List Char :=
  if text = [] then []
  else replBack pBsl ['\\']
        (replBack pSemi [';']
          (replBack pComma [',']
            (replBack pNn ['\n'] text)))

/-- Strip one trailing `Z` (the UTC marker): `value.replace (regex Z-end, '')`. -/
def stripZ (s : List Char) : List Char :=
  if s.getLast? = some 'Z' then s.dropLast else s

/-- Parsed DTSTART or DTEND value. -/
structure DTVal where
  date : List Char
  time : Option (List Char)
deriving DecidableEq, Repr

/-- Parse a DTSTART or DTEND value: 8 characters is a date, 15 or more
containing `T` is a local datetime, anything else is empty. -/
def parseDTValue (value : List Char) : DTVal :=
  if value = [] then ⟨[], none⟩
  else
    let clean := stripZ value
    if clean.length = 8 then
      ⟨clean.take 4 ++ '-' :: (clean.drop 4).take 2 ++ '-' :: (clean.drop 6).take 2, none⟩
    else if 15 ≤ clean.length ∧ 'T' ∈ clean then
      let datePart := clean.take 8
      let timePart := (clean.drop 9).take 4
      ⟨datePart.take 4 ++ '-' :: (datePart.drop 4).take 2 ++ '-' :: (datePart.drop 6).take 2,
       some (timePart.take 2 ++ ':' :: (timePart.drop 2).take 2)⟩
    else ⟨[], none⟩

/-- Decrement an ISO date string by one calendar day, the decoder's
exclusive-end correction, via JavaScript `Date` arithmetic.  At 0000-01-01
the engine's signed year rolls to -1 and renders as `-1-12-31`; every
other parseable date stays in the natural-number range of `datePred`.
Unparseable dates render through the engine's `NaN` template. -/
def decrementISO (s : List Char) : List Char :=
  match isoParse s with
  | some d =>
    if d.year = 0 ∧ d.month = 1 ∧ d.day = 1 then ("-1-12-31").data
    else fmtISO (datePred d)
  | none => ("NaN-NaN-NaN").data

/-- The whitespace class stripped by JavaScript `String.prototype.trim`:
the WhiteSpace production (TAB, VT, FF, SP, NBSP, ZWNBSP and every
Space_Separator code point) together with the LineTerminator production
(LF, CR, LS, PS). -/
def isJsWs (c : Char) : Bool :=
  c == ' ' || c == '\t' || c == '\n' || c == '\r' || c == '\x0B' || c == '\x0C' ||
  c == '\u00A0' || c == '\u1680' ||
  (0x2000 ≤ c.toNat && c.toNat ≤ 0x200A) ||
  c == '\u2028' || c == '\u2029' || c == '\u202F' || c == '\u205F' ||
  c == '\u3000' || c == '\uFEFF'

/-- Leading-whitespace strip of `line.trim ()`. -/
def jsTrimLeft (s : List Char) : List Char := s.dropWhile isJsWs

/-- Trailing-whitespace strip of `line.trim ()`. -/
def jsTrimRight (s : List Char) : List Char := (s.reverse.dropWhile isJsWs).reverse

/-- JavaScript `line.trim ()`. -/
def jsTrim (s : List Char) : List Char := jsTrimRight (jsTrimLeft s)

/-- Prepend a character to the first piece of a split result. -/
def consHead (c : Char) : List (List Char) → List (List Char)
  | [] => [[c]]
  | l :: ls => (c :: l) :: ls

/-- JavaScript `content.split (regex of optional CR then LF)`. -/
def splitLines : List Char → List (List Char)
  | [] => [[]]
  | [c] => if c = '\n' then [[], []] else [[c]]
  | c1 :: c2 :: rest =>
    if c1 = '\n' then [] :: splitLines (c2 :: rest)
    else if c1 = '\r' ∧ c2 = '\n' then [] :: splitLines rest
    else consHead c1 (splitLines (c2 :: rest))

/-- Split at the first colon (`indexOf (':')` plus the two slices);
`none` when the line has no colon. -/
def splitAtColon : List Char → Option (List Char × List Char)
  | [] => none
  | c :: rest =>
    if c = ':' then some ([], rest)
    else
      match splitAtColon rest with
      | none => none
      | some (k, v) => some (c :: k, v)

/-- Full uppercase mapping of one character as performed by JavaScript
`String.prototype.toUpperCase`, restricted to the mappings whose result
lies entirely in the ASCII range: the ASCII letters, sharp s (U+00DF to
`SS`), dotless i (U+0131 to `I`), long s (U+017F to `S`) and the Latin
ligatures U+FB00 to U+FB06 (`FF`, `FI`, `FL`, `FFI`, `FFL`, `ST`, `ST`).
Every other character is kept unchanged: its true uppercase never lies
entirely in the ASCII range, so the decoder's equality tests of uppercased
keys against the ASCII property names cannot tell the difference. -/
def upperChars (c : Char) : List Char :=
  if 'a' ≤ c ∧ c ≤ 'z' then [Char.ofNat (c.toNat - 32)]
  else if c = 'ß' then ['S', 'S']
  else if c = 'ı' then ['I']
  else if c = 'ſ' then ['S']
  else if c = 'ﬀ' then ['F', 'F']
  else if c = 'ﬁ' then ['F', 'I']
  else if c = 'ﬂ' then ['F', 'L']
  else if c = 'ﬃ' then ['F', 'F', 'I']
  else if c = 'ﬄ' then ['F', 'F', 'L']
  else if c = 'ﬅ' then ['S', 'T']
  else if c = 'ﬆ' then ['S', 'T']
  else [c]

/-- JavaScript `key.toUpperCase ()`. -/
def jsToUpper (s : List Char) : List Char := concatAll (s.map upperChars)

/-- The `key.split (';') [0]` step extracting the base property name. -/
def takeBeforeSemi : List Char → List Char
  | [] => []
  | c :: rest => if c = ';' then [] else c :: takeBeforeSemi rest

/-- Property bag accumulated inside a VEVENT block.  JavaScript's falsy
test on an absent or empty string field is modelled by `≠ []`. -/
structure PropBag where
  dtstart : List Char
  dtend : List Char
  summary : List Char
  description : List Char
deriving DecidableEq, Repr

/-- Event object pushed by the decoder.  The ambient `uuidv4 ()` id and the
caller options (`defaultColor`, `isHoliday`) are claim-irrelevant and
omitted. -/
structure ImportedEvent where
  title : List Char
  startDate : List Char
  endDate : List Char
  date : List Char
  startTime : List Char
  endTime : List Char
  description : List Char
deriving DecidableEq, Repr

/-- Finalization of a block at its `END:VEVENT` line (the body of the
`if (current.dtstart)` branch). -/
def finalizeBag (bag : PropBag) : ImportedEvent :=
  let start := parseDTValue bag.dtstart
  let en0 := if bag.dtend ≠ [] then parseDTValue bag.dtend else start
  let en := if start.time = none ∧ en0.date ≠ [] ∧ en0.date ≠ start.date then
              (⟨decrementISO en0.date, en0.time⟩ : DTVal)
            else en0
  ⟨if bag.summary ≠ [] then bag.summary else ("Événement importé").data,
   start.date,
   if en.date ≠ [] then en.date else start.date,
   start.date,
   start.time.getD [],
   en.time.getD [],
   bag.description⟩

/-- Scanner state of the decoder's line loop. -/
structure ParseState where
  events : List ImportedEvent
  inEvent : Bool
  current : PropBag
deriving DecidableEq, Repr

/-- One iteration of the decoder's `for (const line of lines)` loop.  Note
that the source does not reset `current` at `END:VEVENT`. -/
def step (st : ParseState) (line : List Char) : ParseState :=
  let trimmed := jsTrim line
  if trimmed = ("BEGIN:VEVENT").data then ⟨st.events, true, ⟨[], [], [], []⟩⟩
  else if trimmed = ("END:VEVENT").data then
    ⟨if st.current.dtstart ≠ [] then st.events ++ [finalizeBag st.current] else st.events,
     false, st.current⟩
  else if st.inEvent = false then st
  else
    match splitAtColon trimmed with
    | none => st
    | some (k, v) =>
      let baseProp := takeBeforeSemi (jsToUpper k)
      if baseProp = ("DTSTART").data then
        ⟨st.events, st.inEvent, ⟨v, st.current.dtend, st.current.summary, st.current.description⟩⟩
      else if baseProp = ("DTEND").data then
        ⟨st.events, st.inEvent, ⟨st.current.dtstart, v, st.current.summary, st.current.description⟩⟩
      else if baseProp = ("SUMMARY").data then
        ⟨st.events, st.inEvent,
         ⟨st.current.dtstart, st.current.dtend, unescapeText v, st.current.description⟩⟩
      else if baseProp = ("DESCRIPTION").data then
        ⟨st.events, st.inEvent,
         ⟨st.current.dtstart, st.current.dtend, st.current.summary, unescapeText v⟩⟩
      else st

/-- The decoder's scan over the physical lines. -/
def parseICSLines (lines : List (List Char)) : List ImportedEvent :=
  (lines.foldl step ⟨[], false, ⟨[], [], [], []⟩⟩).events

/-- Parse the full content of an .ics file into event objects. -/
def parseICS (icsContent : List Char) : List ImportedEvent :=
  parseICSLines (splitLines (unfold icsContent))

/-! ## Scanner-loop lemmas -/

/-- A line that is neither delimiter nor a recognized property assignment. -/
def junkLine (l : List Char) : Bool :=
  (jsTrim l != ("BEGIN:VEVENT").data) && (jsTrim l != ("END:VEVENT").data) &&
  (match splitAtColon (jsTrim l) with
   | none => true
   | some (k, _) =>
     let key := takeBeforeSemi (jsToUpper k)
     key != ("DTSTART").data && key != ("DTEND").data &&
       key != ("SUMMARY").data && key != ("DESCRIPTION").data)

/-- Well-formed wall-clock time string `HH:MM`. -/
def timeHM (h m : Nat) : List Char := pad2 h ++ ':' :: pad2 m

/-- The per-character unit emitted by the composed encoder escaping. -/
def escUnit (c : Char) : List Char :=
  if c = '\\' then ['\\', '\\']
  else if c = ';' then ['\\', ';']
  else if c = ',' then ['\\', ',']
  else if c = '\n' then ['\\', 'n']
  else [c]

/-- Escaped text after the decoder's first unescaping pass. -/
def u1 (c : Char) : List Char :=
  if c = '\\' then ['\\', '\\']
  else if c = ';' then ['\\', ';']
  else if c = ',' then ['\\', ',']
  else [c]

/-- Escaped text after the decoder's second unescaping pass. -/
def u2 (c : Char) : List Char :=
  if c = '\\' then ['\\', '\\']
  else if c = ';' then ['\\', ';']
  else [c]

/-- Escaped text after the decoder's third unescaping pass. -/
def u3 (c : Char) : List Char :=
  if c = '\\' then ['\\', '\\']
  else [c]

/-- No backslash of the text is immediately followed by a letter `n` or
`N` (the decoder's fragile case). -/
def noBN : List Char → Bool
  | c1 :: c2 :: rest => (! (c1 == '\\' && (c2 == 'n' || c2 == 'N'))) && noBN (c2 :: rest)
  | _ => true

/-! ## Helper lemmas -/

theorem natDigitsAux_succ (fuel n : Nat) :
    natDigitsAux (fuel + 1) n =
      if n < 10 then [digitChar n]
      else natDigitsAux fuel (n / 10) ++ [digitChar (n % 10)] := rfl

theorem natDigitsAux_congr (f1 : Nat) :
    ∀ (f2 n : Nat), n < f1 → n < f2 → natDigitsAux f1 n = natDigitsAux f2 n := by
  induction f1 with
  | zero => intro f2 n h1 _; omega
  | succ f1' ih =>
    intro f2 n h1 h2
    match f2, h2 with
    | f2' + 1, h2 =>
      by_cases h10 : n < 10
      · rw [natDigitsAux_succ, natDigitsAux_succ, if_pos h10, if_pos h10]
      · have hlt : n / 10 < n := Nat.div_lt_self (by omega) (by omega)
        rw [natDigitsAux_succ, natDigitsAux_succ, if_neg h10, if_neg h10,
            ih f2' (n / 10) (by omega) (by omega)]

theorem natDigits_lt10 (n : Nat) (h : n < 10) : natDigits n = [digitChar n] := by
  rw [natDigits, natDigitsAux_succ, if_pos h]

theorem natDigits_ge10 (n : Nat) (h : 10 ≤ n) :
    natDigits n = natDigits (n / 10) ++ [digitChar (n % 10)] := by
  have hlt : n / 10 < n := Nat.div_lt_self (by omega) (by omega)
  rw [natDigits, natDigits, natDigitsAux_succ, if_neg (Nat.not_lt_of_le h),
      natDigitsAux_congr n (n / 10 + 1) (n / 10) (by omega) (by omega)]

theorem jsPad2_eq_pad2 (n : Nat) (h : n < 100) :
    jsPadStart2 (natDigits n) = pad2 n := by
  by_cases h10 : n < 10
  · rw [natDigits_lt10 n h10]
    have hd : n / 10 = 0 := Nat.div_eq_of_lt h10
    have hm : n % 10 = n := Nat.mod_eq_of_lt h10
    simp [jsPadStart2, pad2, hd, hm]
    rfl
  · have h10' : 10 ≤ n := Nat.le_of_not_lt h10
    rw [natDigits_ge10 n h10', natDigits_lt10 (n / 10) (by omega)]
    simp [jsPadStart2, pad2]

theorem natDigits4 (y : Nat) (h1 : 1000 ≤ y) (h2 : y ≤ 9999) :
    natDigits y = [digitChar (y / 1000), digitChar (y / 100 % 10),
                   digitChar (y / 10 % 10), digitChar (y % 10)] := by
  rw [natDigits_ge10 y (by omega), natDigits_ge10 (y / 10) (by omega),
      natDigits_ge10 (y / 10 / 10) (by omega),
      natDigits_lt10 (y / 10 / 10 / 10) (by omega)]
  have e1 : y / 10 / 10 = y / 100 := by omega
  rw [e1]
  have e3 : y / 100 / 10 = y / 1000 := by omega
  simp [e3]

theorem digitChar_toNat (k : Nat) (h : k ≤ 9) : (digitChar k).toNat = 48 + k := by
  interval_cases k <;> decide

theorem digitChar_is_digit (k : Nat) (h : k ≤ 9) :
    '0' ≤ digitChar k ∧ digitChar k ≤ '9' := by
  interval_cases k <;> decide

theorem one_le_daysInMonth (y m : Nat) : 1 ≤ daysInMonth y m := by
  unfold daysInMonth
  split
  · split <;> omega
  · split <;> omega

theorem daysInMonth_le_31 (y m : Nat) : daysInMonth y m ≤ 31 := by
  unfold daysInMonth
  split
  · split <;> omega
  · split <;> omega

theorem datePred_dateSucc (d : Ymd) (h : validYmd d) : datePred (dateSucc d) = d := by
  obtain ⟨h1, h2, h3, h4, h5, h6⟩ := h
  unfold dateSucc
  by_cases hd : d.day < daysInMonth d.year d.month
  · simp only [hd, if_true]
    unfold datePred
    simp only
    have : 1 < d.day + 1 := by omega
    simp [this]
  · simp only [hd, if_false]
    by_cases hm : d.month < 12
    · simp only [hm, if_true]
      unfold datePred
      simp only
      have hne : ¬ (1 < 1) := by omega
      have hmm : 1 < d.month + 1 := by omega
      simp [hne, hmm]
      have : d.day = daysInMonth d.year d.month := by omega
      cases d
      simp_all
    · simp only [hm, if_false]
      unfold datePred
      simp only
      have hne : ¬ (1 < 1) := by omega
      simp [hne]
      have hm12 : d.month = 12 := by omega
      have hday : d.day = 31 := by
        have : daysInMonth d.year d.month = 31 := by
          unfold daysInMonth
          rw [hm12]
          norm_num
        omega
      cases d
      simp_all

theorem dateKey_lt_succ (d : Ymd) (h : validYmd d) : dateKey d < dateKey (dateSucc d) := by
  obtain ⟨h1, h2, h3, h4, h5, h6⟩ := h
  have h31 := daysInMonth_le_31 d.year d.month
  unfold dateSucc dateKey
  by_cases hd : d.day < daysInMonth d.year d.month
  · simp only [hd, if_true]
    omega
  · simp only [hd, if_false]
    by_cases hm : d.month < 12
    · simp only [hm, if_true]
      omega
    · simp only [hm, if_false]
      omega

theorem validYmd_dateSucc (d : Ymd) (h : validYmd d) (h9 : d.year ≤ 9998) :
    validYmd (dateSucc d) := by
  obtain ⟨h1, h2, h3, h4, h5, h6⟩ := h
  unfold dateSucc validYmd
  by_cases hd : d.day < daysInMonth d.year d.month
  · simp only [hd, if_true]
    exact ⟨h1, h2, h3, h4, by omega, by omega⟩
  · simp only [hd, if_false]
    by_cases hm : d.month < 12
    · simp only [hm, if_true]
      exact ⟨h1, h2, by omega, by omega, by omega, one_le_daysInMonth _ _⟩
    · simp only [hm, if_false]
      exact ⟨by omega, by omega, by omega, by omega, by omega, one_le_daysInMonth _ _⟩

theorem digitVal_digitChar (k : Nat) (h : k ≤ 9) : digitVal (digitChar k) = some k := by
  interval_cases k <;> decide

/-- Four-digit years, two-digit months and days render to the explicit
digit-character form. -/
theorem fmtISO_explicit (d : Ymd) (h : validYmd d) :
    fmtISO d = [digitChar (d.year / 1000), digitChar (d.year / 100 % 10),
                digitChar (d.year / 10 % 10), digitChar (d.year % 10), '-',
                digitChar (d.month / 10), digitChar (d.month % 10), '-',
                digitChar (d.day / 10), digitChar (d.day % 10)] := by
  obtain ⟨h1, h2, h3, h4, h5, h6⟩ := h
  have h31 := daysInMonth_le_31 d.year d.month
  unfold fmtISO
  rw [natDigits4 d.year h1 h2, jsPad2_eq_pad2 d.month (by omega),
      jsPad2_eq_pad2 d.day (by omega)]
  simp [pad2]

theorem fmtICS_explicit (d : Ymd) (h : validYmd d) :
    fmtICS d = [digitChar (d.year / 1000), digitChar (d.year / 100 % 10),
                digitChar (d.year / 10 % 10), digitChar (d.year % 10),
                digitChar (d.month / 10), digitChar (d.month % 10),
                digitChar (d.day / 10), digitChar (d.day % 10)] := by
  obtain ⟨h1, h2, h3, h4, h5, h6⟩ := h
  have h31 := daysInMonth_le_31 d.year d.month
  unfold fmtICS
  rw [natDigits4 d.year h1 h2, jsPad2_eq_pad2 d.month (by omega),
      jsPad2_eq_pad2 d.day (by omega)]
  simp [pad2]

theorem isoParse_fmtISO (d : Ymd) (h : validYmd d) : isoParse (fmtISO d) = some d := by
  obtain ⟨h1, h2, h3, h4, h5, h6⟩ := h
  have h31 := daysInMonth_le_31 d.year d.month
  rw [fmtISO_explicit d ⟨h1, h2, h3, h4, h5, h6⟩]
  simp only [isoParse, and_self, if_true,
      digitVal_digitChar (d.year / 1000) (by omega),
      digitVal_digitChar (d.year / 100 % 10) (by omega),
      digitVal_digitChar (d.year / 10 % 10) (by omega),
      digitVal_digitChar (d.year % 10) (by omega),
      digitVal_digitChar (d.month / 10) (by omega),
      digitVal_digitChar (d.month % 10) (by omega),
      digitVal_digitChar (d.day / 10) (by omega),
      digitVal_digitChar (d.day % 10) (by omega)]
  have hy : ((d.year / 1000 * 10 + d.year / 100 % 10) * 10 + d.year / 10 % 10) * 10
      + d.year % 10 = d.year := by omega
  have hm : d.month / 10 * 10 + d.month % 10 = d.month := by omega
  have hd : d.day / 10 * 10 + d.day % 10 = d.day := by omega
  simp only [hy, hm, hd]
  simp [h3, h4, h5, h6]

theorem fmtISO_injOn (d1 d2 : Ymd) (h1 : validYmd d1) (h2 : validYmd d2)
    (he : fmtISO d1 = fmtISO d2) : d1 = d2 := by
  have := isoParse_fmtISO d1 h1
  rw [he, isoParse_fmtISO d2 h2] at this
  exact (Option.some.injEq _ _).mp this.symm

/-! ## Encoder (`icsExporter`) -/

theorem foldPartsAux_congr (f1 : Nat) :
    ∀ (f2 : Nat) (s : List Char), s.length ≤ f1 → s.length ≤ f2 →
      foldPartsAux f1 s = foldPartsAux f2 s := by
  induction f1 with
  | zero =>
    intro f2 s h1 _
    have : s = [] := List.length_eq_zero.mp (by omega)
    subst this
    cases f2 <;> rfl
  | succ f1' ih =>
    intro f2 s h1 h2
    cases s with
    | nil => cases f2 <;> rfl
    | cons c rest =>
      match f2, h2 with
      | f2' + 1, h2 =>
        show ((' ' :: (c :: rest).take 74) :: foldPartsAux f1' ((c :: rest).drop 74)) =
          ((' ' :: (c :: rest).take 74) :: foldPartsAux f2' ((c :: rest).drop 74))
        have hlen : ((c :: rest).drop 74).length = (c :: rest).length - 74 :=
          List.length_drop 74 (c :: rest)
        rw [ih f2' ((c :: rest).drop 74) (by rw [hlen]; omega) (by rw [hlen]; omega)]

theorem foldParts_nil : foldParts [] = [] := rfl

theorem foldParts_cons (s : List Char) (h : s ≠ []) :
    foldParts s = (' ' :: s.take 74) :: foldParts (s.drop 74) := by
  unfold foldParts
  cases s with
  | nil => exact absurd rfl h
  | cons c rest =>
    show ((' ' :: (c :: rest).take 74) :: foldPartsAux (c :: rest).length.pred ((c :: rest).drop 74))
        = _
    rw [foldPartsAux_congr (c :: rest).length.pred ((c :: rest).drop 74).length
        ((c :: rest).drop 74)
        (by simp only [List.length_drop, List.length_cons, Nat.pred_succ]; omega) (by omega)]

theorem step_events_of_ne_end (s : ParseState) (l : List Char)
    (h : jsTrim l ≠ ("END:VEVENT").data) : (step s l).events = s.events := by
  unfold step
  by_cases hb : jsTrim l = ("BEGIN:VEVENT").data
  · simp [hb]
  · rw [if_neg hb, if_neg h]
    by_cases hin : s.inEvent = false
    · rw [if_pos hin]
    · rw [if_neg hin]
      cases hsp : splitAtColon (jsTrim l) with
      | none => rfl
      | some kv =>
        obtain ⟨k, v⟩ := kv
        simp only
        split_ifs <;> rfl

theorem foldl_events_of_no_end (tail : List (List Char)) :
    ∀ s : ParseState, (∀ l ∈ tail, jsTrim l ≠ ("END:VEVENT").data) →
      (tail.foldl step s).events = s.events := by
  induction tail with
  | nil => intro s _; rfl
  | cons l rest ih =>
    intro s h
    rw [List.foldl_cons, ih (step s l) (fun x hx => h x (List.mem_cons_of_mem l hx)),
        step_events_of_ne_end s l (h l (List.mem_cons_self l rest))]

theorem step_of_junkLine (s : ParseState) (l : List Char)
    (h : junkLine l = true) : step s l = s := by
  unfold junkLine at h
  unfold step
  rw [Bool.and_eq_true, Bool.and_eq_true] at h
  obtain ⟨⟨hb, he⟩, hk⟩ := h
  rw [bne_iff_ne] at hb he
  rw [if_neg hb, if_neg he]
  by_cases hin : s.inEvent = false
  · rw [if_pos hin]
  · rw [if_neg hin]
    cases hsp : splitAtColon (jsTrim l) with
    | none => rfl
    | some kv =>
      obtain ⟨k, v⟩ := kv
      rw [hsp] at hk
      simp only [bne_iff_ne, Bool.and_eq_true, ne_eq] at hk
      obtain ⟨⟨⟨h1, h2⟩, h3⟩, h4⟩ := hk
      simp only [h1, h2, h3, h4, if_false]

theorem mem_step_events (s : ParseState) (l : List Char) (e : ImportedEvent)
    (h : e ∈ (step s l).events) :
    e ∈ s.events ∨ ∃ bag : PropBag, bag.dtstart ≠ [] ∧ e = finalizeBag bag := by
  unfold step at h
  by_cases hb : jsTrim l = ("BEGIN:VEVENT").data
  · simp [hb] at h
    exact Or.inl h
  · rw [if_neg hb] at h
    by_cases he : jsTrim l = ("END:VEVENT").data
    · rw [if_pos he] at h
      simp only at h
      by_cases hd : s.current.dtstart ≠ []
      · rw [if_pos hd] at h
        rcases List.mem_append.mp h with h1 | h1
        · exact Or.inl h1
        · exact Or.inr ⟨s.current, hd, (List.mem_singleton.mp h1)⟩
      · rw [if_neg hd] at h
        exact Or.inl h
    · rw [if_neg he] at h
      by_cases hin : s.inEvent = false
      · rw [if_pos hin] at h
        exact Or.inl h
      · rw [if_neg hin] at h
        cases hsp : splitAtColon (jsTrim l) with
        | none => rw [hsp] at h; exact Or.inl h
        | some kv =>
          obtain ⟨k, v⟩ := kv
          rw [hsp] at h
          simp only at h
          split_ifs at h <;> exact Or.inl h

theorem replaceChar_cons (a : Char) (r : List Char) (c : Char) (s : List Char) :
    replaceChar a r (c :: s) = (if c = a then r else [c]) ++ replaceChar a r s := rfl

theorem replaceChar_append (a : Char) (r s t : List Char) :
    replaceChar a r (s ++ t) = replaceChar a r s ++ replaceChar a r t := by
  induction s with
  | nil => rfl
  | cons c s ih =>
    rw [List.cons_append, replaceChar_cons, replaceChar_cons, ih, List.append_assoc]

theorem concatAll_cons (l : List α) (ls : List (List α)) :
    concatAll (l :: ls) = l ++ concatAll ls := rfl

theorem escapeText_eq_units (t : List Char) :
    escapeText t = concatAll (t.map escUnit) := by
  have chain : ∀ u : List Char,
      replaceChar '\n' ['\\', 'n'] (replaceChar ',' ['\\', ','] (replaceChar ';' ['\\', ';']
        (replaceChar '\\' ['\\', '\\'] u))) = concatAll (u.map escUnit) := by
    intro u
    induction u with
    | nil => rfl
    | cons c u ih =>
      rw [replaceChar_cons]
      simp only [replaceChar_append]
      rw [ih, List.map_cons, concatAll_cons]
      congr 1
      by_cases h1 : c = '\\'
      · subst h1; rfl
      · by_cases h2 : c = ';'
        · subst h2; rfl
        · by_cases h3 : c = ','
          · subst h3; rfl
          · by_cases h4 : c = '\n'
            · subst h4; rfl
            · simp [replaceChar_cons, replaceChar, escUnit, h1, h2, h3, h4]
  by_cases ht : t = []
  · subst ht; rfl
  · unfold escapeText
    rw [if_neg ht]
    exact chain t

theorem escUnit_ne_nil (c : Char) : escUnit c ≠ [] := by
  unfold escUnit
  split_ifs <;> simp

theorem concat_escUnits_ne_nil (c : Char) (t : List Char) :
    concatAll ((c :: t).map escUnit) ≠ [] := by
  rw [List.map_cons, concatAll_cons]
  intro h
  exact escUnit_ne_nil c (List.append_eq_nil.mp h).1

theorem replBack_cons2 (p : Char → Bool) (r : List Char) (c1 c2 : Char) (rest : List Char) :
    replBack p r (c1 :: c2 :: rest) =
      if c1 = '\\' then
        (if p c2 then r ++ replBack p r rest else c1 :: replBack p r (c2 :: rest))
      else c1 :: replBack p r (c2 :: rest) := rfl

theorem replBack_not_bsl (p : Char → Bool) (r : List Char) (c : Char) (rest : List Char)
    (h : c ≠ '\\') : replBack p r (c :: rest) = c :: replBack p r rest := by
  cases rest with
  | nil => rfl
  | cons c2 rest2 => rw [replBack_cons2, if_neg h]

theorem replBack_bsl_match (p : Char → Bool) (r : List Char) (c2 : Char) (rest : List Char)
    (h : p c2 = true) : replBack p r ('\\' :: c2 :: rest) = r ++ replBack p r rest := by
  rw [replBack_cons2, if_pos rfl, if_pos h]

theorem replBack_bsl_nomatch (p : Char → Bool) (r : List Char) (c2 : Char) (rest : List Char)
    (h : p c2 = false) :
    replBack p r ('\\' :: c2 :: rest) = '\\' :: replBack p r (c2 :: rest) := by
  rw [replBack_cons2, if_pos rfl, if_neg (by rw [h]; exact Bool.false_ne_true)]

theorem replBack_cons_bsl_safe (p : Char → Bool) (r : List Char) (X : List Char)
    (hX : X = [] ∨ ∃ d xs, X = d :: xs ∧ p d = false) :
    replBack p r ('\\' :: X) = '\\' :: replBack p r X := by
  rcases hX with h | ⟨d, xs, hdx, hd⟩
  · subst h; rfl
  · subst hdx
    exact replBack_bsl_nomatch p r d xs hd

theorem noBN_tail (c : Char) (t : List Char) (h : noBN (c :: t) = true) : noBN t = true := by
  cases t with
  | nil => rfl
  | cons c2 t'' =>
    have : noBN (c :: c2 :: t'') =
        ((! (c == '\\' && (c2 == 'n' || c2 == 'N'))) && noBN (c2 :: t'')) := rfl
    rw [this, Bool.and_eq_true] at h
    exact h.2

theorem noBN_head (c2 : Char) (t'' : List Char) (h : noBN ('\\' :: c2 :: t'') = true) :
    (c2 == 'n' || c2 == 'N') = false := by
  have e : noBN ('\\' :: c2 :: t'') =
      ((! (('\\' : Char) == '\\' && (c2 == 'n' || c2 == 'N'))) && noBN (c2 :: t'')) := rfl
  rw [e, Bool.and_eq_true] at h
  have := h.1
  simp at this
  simp [this]

theorem pass1_units (t : List Char) (hbn : noBN t = true) :
    replBack pNn ['\n'] (concatAll (t.map escUnit)) = concatAll (t.map u1) := by
  induction t with
  | nil => rfl
  | cons c t' ih =>
    have ih' := ih (noBN_tail c t' hbn)
    rw [List.map_cons, concatAll_cons, List.map_cons, concatAll_cons]
    by_cases h1 : c = '\\'
    · subst h1
      show replBack pNn ['\n'] ('\\' :: '\\' :: concatAll (t'.map escUnit))
          = '\\' :: '\\' :: concatAll (t'.map u1)
      rw [replBack_bsl_nomatch _ _ _ _ (by decide)]
      rw [replBack_cons_bsl_safe pNn ['\n'] _ ?side, ih']
      case side =>
        cases t'h : t' with
        | nil => exact Or.inl rfl
        | cons c2 t'' =>
          refine Or.inr ?_
          rw [List.map_cons, concatAll_cons]
          have hc2 : (c2 == 'n' || c2 == 'N') = false := by
            rw [t'h] at hbn
            exact noBN_head c2 t'' hbn
          by_cases g1 : c2 = '\\'
          · subst g1; exact ⟨'\\', _, rfl, by decide⟩
          · by_cases g2 : c2 = ';'
            · subst g2; exact ⟨'\\', _, rfl, by decide⟩
            · by_cases g3 : c2 = ','
              · subst g3; exact ⟨'\\', _, rfl, by decide⟩
              · by_cases g4 : c2 = '\n'
                · subst g4; exact ⟨'\\', _, rfl, by decide⟩
                · refine ⟨c2, concatAll (t''.map escUnit), ?_, ?_⟩
                  · rw [show escUnit c2 = [c2] from by
                      unfold escUnit; rw [if_neg g1, if_neg g2, if_neg g3, if_neg g4]]
                    rfl
                  · exact hc2
    · by_cases h2 : c = ';'
      · subst h2
        show replBack pNn ['\n'] ('\\' :: ';' :: concatAll (t'.map escUnit))
            = '\\' :: ';' :: concatAll (t'.map u1)
        rw [replBack_bsl_nomatch _ _ _ _ (by decide),
            replBack_not_bsl _ _ _ _ (by decide), ih']
      · by_cases h3 : c = ','
        · subst h3
          show replBack pNn ['\n'] ('\\' :: ',' :: concatAll (t'.map escUnit))
              = '\\' :: ',' :: concatAll (t'.map u1)
          rw [replBack_bsl_nomatch _ _ _ _ (by decide),
              replBack_not_bsl _ _ _ _ (by decide), ih']
        · by_cases h4 : c = '\n'
          · subst h4
            show replBack pNn ['\n'] ('\\' :: 'n' :: concatAll (t'.map escUnit))
                = '\n' :: concatAll (t'.map u1)
            rw [replBack_bsl_match _ _ _ _ (by decide), ih']
            rfl
          · rw [show escUnit c = [c] from by
                unfold escUnit; rw [if_neg h1, if_neg h2, if_neg h3, if_neg h4],
                show u1 c = [c] from by
                unfold u1; rw [if_neg h1, if_neg h2, if_neg h3]]
            show replBack pNn ['\n'] (c :: concatAll (t'.map escUnit))
                = c :: concatAll (t'.map u1)
            rw [replBack_not_bsl _ _ _ _ h1, ih']

theorem pass2_units (t : List Char) :
    replBack pComma [','] (concatAll (t.map u1)) = concatAll (t.map u2) := by
  induction t with
  | nil => rfl
  | cons c t' ih =>
    rw [List.map_cons, concatAll_cons, List.map_cons, concatAll_cons]
    by_cases h1 : c = '\\'
    · subst h1
      show replBack pComma [','] ('\\' :: '\\' :: concatAll (t'.map u1))
          = '\\' :: '\\' :: concatAll (t'.map u2)
      rw [replBack_bsl_nomatch _ _ _ _ (by decide)]
      rw [replBack_cons_bsl_safe pComma [','] _ ?side, ih]
      case side =>
        cases t'h : t' with
        | nil => exact Or.inl rfl
        | cons c2 t'' =>
          refine Or.inr ?_
          rw [List.map_cons, concatAll_cons]
          by_cases g1 : c2 = '\\'
          · subst g1; exact ⟨'\\', _, rfl, by decide⟩
          · by_cases g2 : c2 = ';'
            · subst g2; exact ⟨'\\', _, rfl, by decide⟩
            · by_cases g3 : c2 = ','
              · subst g3; exact ⟨'\\', _, rfl, by decide⟩
              · refine ⟨c2, concatAll (t''.map u1), ?_, ?_⟩
                · rw [show u1 c2 = [c2] from by
                    unfold u1; rw [if_neg g1, if_neg g2, if_neg g3]]
                  rfl
                · simp [pComma, g3]
    · by_cases h2 : c = ';'
      · subst h2
        show replBack pComma [','] ('\\' :: ';' :: concatAll (t'.map u1))
            = '\\' :: ';' :: concatAll (t'.map u2)
        rw [replBack_bsl_nomatch _ _ _ _ (by decide),
            replBack_not_bsl _ _ _ _ (by decide), ih]
      · by_cases h3 : c = ','
        · subst h3
          show replBack pComma [','] ('\\' :: ',' :: concatAll (t'.map u1))
              = ',' :: concatAll (t'.map u2)
          rw [replBack_bsl_match _ _ _ _ (by decide), ih]
          rfl
        · rw [show u1 c = [c] from by
              unfold u1; rw [if_neg h1, if_neg h2, if_neg h3],
              show u2 c = [c] from by unfold u2; rw [if_neg h1, if_neg h2]]
          show replBack pComma [','] (c :: concatAll (t'.map u1))
              = c :: concatAll (t'.map u2)
          rw [replBack_not_bsl _ _ _ _ h1, ih]

theorem pass3_units (t : List Char) :
    replBack pSemi [';'] (concatAll (t.map u2)) = concatAll (t.map u3) := by
  induction t with
  | nil => rfl
  | cons c t' ih =>
    rw [List.map_cons, concatAll_cons, List.map_cons, concatAll_cons]
    by_cases h1 : c = '\\'
    · subst h1
      show replBack pSemi [';'] ('\\' :: '\\' :: concatAll (t'.map u2))
          = '\\' :: '\\' :: concatAll (t'.map u3)
      rw [replBack_bsl_nomatch _ _ _ _ (by decide)]
      rw [replBack_cons_bsl_safe pSemi [';'] _ ?side, ih]
      case side =>
        cases t'h : t' with
        | nil => exact Or.inl rfl
        | cons c2 t'' =>
          refine Or.inr ?_
          rw [List.map_cons, concatAll_cons]
          by_cases g1 : c2 = '\\'
          · subst g1; exact ⟨'\\', _, rfl, by decide⟩
          · by_cases g2 : c2 = ';'
            · subst g2; exact ⟨'\\', _, rfl, by decide⟩
            · refine ⟨c2, concatAll (t''.map u2), ?_, ?_⟩
              · rw [show u2 c2 = [c2] from by unfold u2; rw [if_neg g1, if_neg g2]]
                rfl
              · simp [pSemi, g2]
    · by_cases h2 : c = ';'
      · subst h2
        show replBack pSemi [';'] ('\\' :: ';' :: concatAll (t'.map u2))
            = ';' :: concatAll (t'.map u3)
        rw [replBack_bsl_match _ _ _ _ (by decide), ih]
        rfl
      · rw [show u2 c = [c] from by unfold u2; rw [if_neg h1, if_neg h2],
            show u3 c = [c] from by unfold u3; rw [if_neg h1]]
        show replBack pSemi [';'] (c :: concatAll (t'.map u2))
            = c :: concatAll (t'.map u3)
        rw [replBack_not_bsl _ _ _ _ h1, ih]

theorem pass4_units (t : List Char) :
    replBack pBsl ['\\'] (concatAll (t.map u3)) = t := by
  induction t with
  | nil => rfl
  | cons c t' ih =>
    rw [List.map_cons, concatAll_cons]
    by_cases h1 : c = '\\'
    · subst h1
      show replBack pBsl ['\\'] ('\\' :: '\\' :: concatAll (t'.map u3)) = '\\' :: t'
      rw [replBack_bsl_match _ _ _ _ (by decide), ih]
      rfl
    · rw [show u3 c = [c] from by unfold u3; rw [if_neg h1]]
      show replBack pBsl ['\\'] (c :: concatAll (t'.map u3)) = c :: t'
      rw [replBack_not_bsl _ _ _ _ h1, ih]

theorem unescape_escape_of_noBN (t : List Char) (hbn : noBN t = true) :
    unescapeText (escapeText t) = t := by
  by_cases ht : t = []
  · subst ht; rfl
  · rw [escapeText_eq_units]
    unfold unescapeText
    cases t with
    | nil => exact absurd rfl ht
    | cons c t' =>
      rw [if_neg (concat_escUnits_ne_nil c t'),
          pass1_units (c :: t') hbn, pass2_units, pass3_units, pass4_units]

theorem mem_foldl_step_events (lines : List (List Char)) :
    ∀ (s : ParseState) (e : ImportedEvent), e ∈ (lines.foldl step s).events →
      e ∈ s.events ∨ ∃ bag : PropBag, bag.dtstart ≠ [] ∧ e = finalizeBag bag := by
  induction lines with
  | nil => intro s e h; exact Or.inl h
  | cons l rest ih =>
    intro s e h
    rcases ih (step s l) e h with h1 | h1
    · exact mem_step_events s l e h1
    · exact Or.inr h1

theorem digitChar_ne_colon (k : Nat) (h : k ≤ 9) : digitChar k ≠ ':' := by
  interval_cases k <;> decide

theorem natDigits_ne_nil (n : Nat) : natDigits n ≠ [] := by
  by_cases h : n < 10
  · rw [natDigits_lt10 n h]
    simp
  · rw [natDigits_ge10 n (by omega)]
    simp

theorem fmtISO_ne_nil (d : Ymd) : fmtISO d ≠ [] := by
  unfold fmtISO
  intro h
  exact natDigits_ne_nil d.year (List.append_eq_nil.mp (List.append_eq_nil.mp h).1).1

theorem timeHM_ne_nil (h m : Nat) : timeHM h m ≠ [] := by
  unfold timeHM pad2
  simp

theorem pad2_no_colon (k : Nat) (hk : k ≤ 99) : ∀ c ∈ pad2 k, c ≠ ':' := by
  intro c hc
  unfold pad2 at hc
  rcases List.mem_cons.mp hc with h | h
  · subst h; exact digitChar_ne_colon _ (by omega)
  · rcases List.mem_cons.mp h with h' | h'
    · subst h'; exact digitChar_ne_colon _ (by omega)
    · exact absurd h' (List.not_mem_nil c)

theorem jsSplitColon_cons (c : Char) (rest : List Char) :
    jsSplitColon (c :: rest) =
      if c = ':' then [] :: jsSplitColon rest
      else
        match jsSplitColon rest with
        | [] => [[c]]
        | l :: ls => (c :: l) :: ls := rfl

theorem jsSplitColon_no_colon (s : List Char) (h : ∀ c ∈ s, c ≠ ':') :
    jsSplitColon s = [s] := by
  induction s with
  | nil => rfl
  | cons c rest ih =>
    rw [jsSplitColon_cons, if_neg (h c (List.mem_cons_self c rest)),
        ih (fun x hx => h x (List.mem_cons_of_mem c hx))]

theorem jsSplitColon_append_colon (s t : List Char) (h : ∀ c ∈ s, c ≠ ':') :
    jsSplitColon (s ++ ':' :: t) = s :: jsSplitColon t := by
  induction s with
  | nil =>
    rw [List.nil_append, jsSplitColon_cons, if_pos rfl]
  | cons c rest ih =>
    rw [List.cons_append, jsSplitColon_cons,
        if_neg (h c (List.mem_cons_self c rest)),
        ih (fun x hx => h x (List.mem_cons_of_mem c hx))]

theorem jsNumber_pad2 (k : Nat) (hk : k ≤ 99) : jsNumber (some (pad2 k)) = some k := by
  have h1 := digitVal_digitChar (k / 10) (by omega)
  have h2 := digitVal_digitChar (k % 10) (by omega)
  simp only [jsNumber, pad2, List.foldl_cons, List.foldl_nil, h1, h2]
  congr 1
  omega

theorem defaultEndTime_timeHM (h m : Nat) (hh : h ≤ 98) (hm : m ≤ 99) :
    defaultEndTime (timeHM h m) = timeHM (h + 1) m := by
  unfold defaultEndTime timeHM
  rw [jsSplitColon_append_colon (pad2 h) (pad2 m) (pad2_no_colon h (by omega)),
      jsSplitColon_no_colon (pad2 m) (pad2_no_colon m (by omega))]
  dsimp only
  rw [show ([pad2 h, pad2 m]).get? 0 = some (pad2 h) from rfl,
      show ([pad2 h, pad2 m]).get? 1 = some (pad2 m) from rfl,
      jsNumber_pad2 h (by omega), jsNumber_pad2 m (by omega)]
  rw [show jsNumToString (Option.map (fun x => x + 1) (some h)) = natDigits (h + 1) from rfl,
      show jsNumToString (some m) = natDigits m from rfl,
      jsPad2_eq_pad2 (h + 1) (by omega), jsPad2_eq_pad2 m (by omega)]

theorem nextDayICS_fmtISO (d : Ymd) (hv : validYmd d) :
    nextDayICS (fmtISO d) = fmtICS (dateSucc d) := by
  unfold nextDayICS
  rw [isoParse_fmtISO d hv]

theorem head_ne_newline_of_not_mem (s : List Char) (h : '\n' ∉ s) :
    s.head? ≠ some '\n' := by
  cases s with
  | nil => simp
  | cons d s' =>
    intro hd
    rw [List.head?_cons] at hd
    exact h (Option.some.inj hd ▸ List.mem_cons_self d s')

theorem unfold_two (c1 c2 : Char) :
    unfold [c1, c2] = if c1 = '\n' ∧ (c2 = ' ' ∨ c2 = '\t') then [] else [c1, c2] := rfl

theorem unfold_cons3 (c1 c2 c3 : Char) (rest : List Char) :
    unfold (c1 :: c2 :: c3 :: rest) =
      if c1 = '\n' ∧ (c2 = ' ' ∨ c2 = '\t') then unfold (c3 :: rest)
      else if c1 = '\r' ∧ c2 = '\n' ∧ (c3 = ' ' ∨ c3 = '\t') then unfold rest
      else c1 :: unfold (c2 :: c3 :: rest) := rfl

theorem unfold_cons_safe (c : Char) (X : List Char) (hc : c ≠ '\n')
    (hX : X.head? ≠ some '\n') : unfold (c :: X) = c :: unfold X := by
  match X with
  | [] => rfl
  | [x2] =>
    rw [unfold_two, if_neg (fun hh => hc hh.1)]
    rfl
  | x2 :: x3 :: xs =>
    rw [unfold_cons3, if_neg (fun hh => hc hh.1),
        if_neg (fun hh => hX (by rw [hh.2.1]; rfl))]

theorem unfold_no_newline (s : List Char) (h : '\n' ∉ s) : unfold s = s := by
  induction s with
  | nil => rfl
  | cons c s' ih =>
    have hc : c ≠ '\n' := fun hh => h (hh ▸ List.mem_cons_self c s')
    have hs' : '\n' ∉ s' := fun hh => h (List.mem_cons_of_mem c hh)
    have hhead : s'.head? ≠ some '\n' := head_ne_newline_of_not_mem s' hs'
    rw [unfold_cons_safe c s' hc hhead, ih hs']

theorem unfold_append_safe (l s : List Char) (hl : '\n' ∉ l)
    (hs : s.head? ≠ some '\n') : unfold (l ++ s) = l ++ unfold s := by
  induction l with
  | nil => rfl
  | cons c l' ih =>
    have hc : c ≠ '\n' := fun hh => hl (hh ▸ List.mem_cons_self c l')
    have hl' : '\n' ∉ l' := fun hh => hl (List.mem_cons_of_mem c hh)
    have hhead : (l' ++ s).head? ≠ some '\n' := by
      cases l' with
      | nil => exact hs
      | cons d l'' =>
        rw [List.cons_append, List.head?_cons]
        intro hd
        exact hl' (Option.some.inj hd ▸ List.mem_cons_self d l'')
    rw [List.cons_append, unfold_cons_safe c (l' ++ s) hc hhead, ih hl']
    rfl

theorem unfold_crlf_step (t : List Char)
    (ht : ∀ c, t.head? = some c → c ≠ ' ' ∧ c ≠ '\t') :
    unfold ('\r' :: '\n' :: t) = '\r' :: '\n' :: unfold t := by
  cases t with
  | nil =>
    rw [unfold_two, if_neg (by simp)]
    rfl
  | cons c t' =>
    obtain ⟨hsp, htab⟩ := ht c rfl
    rw [unfold_cons3, if_neg (by simp),
        if_neg (fun hh => by rcases hh.2.2 with h | h; exact hsp h; exact htab h)]
    cases t' with
    | nil =>
      rw [unfold_two, if_neg (fun hh => by rcases hh.2 with h | h; exact hsp h; exact htab h)]
      rfl
    | cons d t'' =>
      rw [unfold_cons3,
          if_neg (fun hh => by rcases hh.2 with h | h; exact hsp h; exact htab h),
          if_neg (by simp)]

theorem unfold_crlf_ws (c3 : Char) (h : c3 = ' ' ∨ c3 = '\t') (rest : List Char) :
    unfold ('\r' :: '\n' :: c3 :: rest) = unfold rest := by
  rw [unfold_cons3, if_neg (by simp), if_pos ⟨rfl, rfl, h⟩]

theorem foldParts_ne_nil (s : List Char) (h : s ≠ []) : foldParts s ≠ [] := by
  rw [foldParts_cons s h]
  simp

theorem foldParts_no_newline (n : Nat) :
    ∀ (s : List Char), s.length ≤ n → '\n' ∉ s →
      ∀ p ∈ foldParts s, '\n' ∉ p := by
  induction n with
  | zero =>
    intro s hlen hnl p hp
    have : s = [] := List.length_eq_zero.mp (by omega)
    subst this
    rw [foldParts_nil] at hp
    exact absurd hp (List.not_mem_nil p)
  | succ n ih =>
    intro s hlen hnl p hp
    by_cases hs : s = []
    · subst hs
      rw [foldParts_nil] at hp
      exact absurd hp (List.not_mem_nil p)
    · rw [foldParts_cons s hs] at hp
      rcases List.mem_cons.mp hp with h | h
      · subst h
        intro hmem
        rcases List.mem_cons.mp hmem with h' | h'
        · exact absurd h'.symm (by decide)
        · exact hnl (List.take_subset 74 s h')
      · have hds : (s.drop 74).length ≤ n := by
          have := List.length_drop 74 s
          have hpos : 0 < s.length := List.length_pos.mpr hs
          omega
        exact ih (s.drop 74) hds (fun hh => hnl (List.drop_subset 74 s hh)) p h

theorem foldParts_space_head (n : Nat) :
    ∀ (s : List Char), s.length ≤ n → ∀ p ∈ foldParts s, ∃ q, p = ' ' :: q := by
  induction n with
  | zero =>
    intro s hlen p hp
    have : s = [] := List.length_eq_zero.mp (by omega)
    subst this
    rw [foldParts_nil] at hp
    exact absurd hp (List.not_mem_nil p)
  | succ n ih =>
    intro s hlen p hp
    by_cases hs : s = []
    · subst hs
      rw [foldParts_nil] at hp
      exact absurd hp (List.not_mem_nil p)
    · rw [foldParts_cons s hs] at hp
      rcases List.mem_cons.mp hp with h | h
      · exact ⟨s.take 74, h⟩
      · have hds : (s.drop 74).length ≤ n := by
          have := List.length_drop 74 s
          have hpos : 0 < s.length := List.length_pos.mpr hs
          omega
        exact ih (s.drop 74) hds p h

theorem joinCRLF_cons2 (a b : List Char) (ls : List (List Char)) :
    joinCRLF (a :: b :: ls) = a ++ '\r' :: '\n' :: joinCRLF (b :: ls) := rfl

theorem unfold_foldTail (n : Nat) :
    ∀ (s : List Char), s.length ≤ n → s ≠ [] → '\n' ∉ s →
      unfold ('\r' :: '\n' :: joinCRLF (foldParts s)) = s := by
  induction n with
  | zero =>
    intro s hlen hne _
    exact absurd (List.length_eq_zero.mp (by omega)) hne
  | succ n ih =>
    intro s hlen hne hnl
    rw [foldParts_cons s hne]
    by_cases hd : s.drop 74 = []
    · have hle : s.length ≤ 74 := by
        have := List.length_drop 74 s
        have := congrArg List.length hd
        simp at this
        omega
      rw [hd, foldParts_nil]
      have htake : s.take 74 = s := List.take_of_length_le hle
      rw [htake]
      show unfold ('\r' :: '\n' :: ' ' :: s) = s
      rw [unfold_crlf_ws ' ' (Or.inl rfl) s]
      exact unfold_no_newline s hnl
    · obtain ⟨q, qs, hq⟩ : ∃ q qs, foldParts (s.drop 74) = q :: qs := by
        cases hfp : foldParts (s.drop 74) with
        | nil => exact absurd hfp (foldParts_ne_nil _ hd)
        | cons q qs => exact ⟨q, qs, rfl⟩
      rw [hq, joinCRLF_cons2]
      rw [show (' ' :: s.take 74) ++ '\r' :: '\n' :: joinCRLF (q :: qs)
            = ' ' :: (s.take 74 ++ '\r' :: '\n' :: joinCRLF (q :: qs)) from rfl]
      rw [unfold_crlf_ws ' ' (Or.inl rfl)]
      rw [unfold_append_safe (s.take 74) _
          (fun hh => hnl (List.take_subset 74 s hh)) (by simp)]
      have hds : (s.drop 74).length ≤ n := by
        have := List.length_drop 74 s
        have hpos : 0 < s.length := List.length_pos.mpr hne
        omega
      rw [← hq, ih (s.drop 74) hds hd (fun hh => hnl (List.drop_subset 74 s hh)),
          List.take_append_drop]

theorem unfold_foldLine (l : List Char) (hnl : '\n' ∉ l) :
    unfold (foldLine l) = l := by
  unfold foldLine
  by_cases hlen : l.length ≤ 75
  · rw [if_pos hlen]
    exact unfold_no_newline l hnl
  · rw [if_neg hlen]
    have hdne : l.drop 75 ≠ [] := by
      intro hh
      have := congrArg List.length hh
      simp at this
      omega
    obtain ⟨q, qs, hq⟩ : ∃ q qs, foldParts (l.drop 75) = q :: qs := by
      cases hfp : foldParts (l.drop 75) with
      | nil => exact absurd hfp (foldParts_ne_nil _ hdne)
      | cons q qs => exact ⟨q, qs, rfl⟩
    rw [hq, joinCRLF_cons2, unfold_append_safe (l.take 75) _
        (fun hh => hnl (List.take_subset 75 l hh)) (by simp), ← hq,
        unfold_foldTail (l.drop 75).length (l.drop 75) le_rfl hdne
          (fun hh => hnl (List.drop_subset 75 l hh)),
        List.take_append_drop]

theorem consHead_cons (c : Char) (l : List Char) (ls : List (List Char)) :
    consHead c (l :: ls) = (c :: l) :: ls := rfl

theorem splitLines_one (c : Char) :
    splitLines [c] = if c = '\n' then [[], []] else [[c]] := rfl

theorem splitLines_cons2 (c1 c2 : Char) (rest : List Char) :
    splitLines (c1 :: c2 :: rest) =
      if c1 = '\n' then [] :: splitLines (c2 :: rest)
      else if c1 = '\r' ∧ c2 = '\n' then [] :: splitLines rest
      else consHead c1 (splitLines (c2 :: rest)) := rfl

theorem splitLines_cons_safe (c : Char) (X : List Char) (hc : c ≠ '\n')
    (hX : X.head? ≠ some '\n') : splitLines (c :: X) = consHead c (splitLines X) := by
  match X with
  | [] => rw [splitLines_one, if_neg hc]; rfl
  | x2 :: xs =>
    rw [splitLines_cons2, if_neg hc, if_neg (fun hh => hX (by rw [hh.2]; rfl))]

theorem splitLines_no_newline (s : List Char) (h : '\n' ∉ s) : splitLines s = [s] := by
  induction s with
  | nil => rfl
  | cons c s' ih =>
    have hc : c ≠ '\n' := fun hh => h (hh ▸ List.mem_cons_self c s')
    have hs' : '\n' ∉ s' := fun hh => h (List.mem_cons_of_mem c hh)
    have hhead : s'.head? ≠ some '\n' := head_ne_newline_of_not_mem s' hs'
    rw [splitLines_cons_safe c s' hc hhead, ih hs', consHead_cons]

theorem splitLines_append (l s : List Char) (hl : '\n' ∉ l) :
    splitLines (l ++ '\r' :: '\n' :: s) = l :: splitLines s := by
  induction l with
  | nil =>
    rw [List.nil_append, splitLines_cons2, if_neg (by decide), if_pos ⟨rfl, rfl⟩]
  | cons c l' ih =>
    have hc : c ≠ '\n' := fun hh => hl (hh ▸ List.mem_cons_self c l')
    have hl' : '\n' ∉ l' := fun hh => hl (List.mem_cons_of_mem c hh)
    have hhead : (l' ++ '\r' :: '\n' :: s).head? ≠ some '\n' := by
      cases l' with
      | nil => simp
      | cons d l'' =>
        rw [List.cons_append, List.head?_cons]
        intro hd
        exact hl' (Option.some.inj hd ▸ List.mem_cons_self d l'')
    rw [List.cons_append, splitLines_cons_safe c _ hc hhead, ih hl', consHead_cons]

theorem splitLines_joinCRLF (ps : List (List Char)) (hne : ps ≠ [])
    (hnl : ∀ p ∈ ps, '\n' ∉ p) : splitLines (joinCRLF ps) = ps := by
  induction ps with
  | nil => exact absurd rfl hne
  | cons p ps' ih =>
    cases ps' with
    | nil => exact splitLines_no_newline p (hnl p (List.mem_cons_self p []))
    | cons q qs =>
      rw [joinCRLF_cons2, splitLines_append p _ (hnl p (List.mem_cons_self p _)),
          ih (by simp) (fun x hx => hnl x (List.mem_cons_of_mem p hx))]

theorem splitLines_foldLine (l : List Char) (hnl : '\n' ∉ l) (hlen : 75 < l.length) :
    splitLines (foldLine l) = l.take 75 :: foldParts (l.drop 75) := by
  unfold foldLine
  rw [if_neg (by omega)]
  apply splitLines_joinCRLF
  · simp
  · intro p hp
    rcases List.mem_cons.mp hp with h | h
    · subst h
      exact fun hh => hnl (List.take_subset 75 l hh)
    · exact foldParts_no_newline (l.drop 75).length (l.drop 75) le_rfl
        (fun hh => hnl (List.drop_subset 75 l hh)) p h

theorem digitChar_not_ws (k : Nat) (h : k ≤ 9) : isJsWs (digitChar k) = false := by
  interval_cases k <;> decide

theorem digitChar_ne_dash (k : Nat) (h : k ≤ 9) : digitChar k ≠ '-' := by
  interval_cases k <;> decide

theorem digitChar_ne_Z (k : Nat) (h : k ≤ 9) : digitChar k ≠ 'Z' := by
  interval_cases k <;> decide

theorem digitChar_ne_newline (k : Nat) (h : k ≤ 9) : digitChar k ≠ '\n' := by
  interval_cases k <;> decide

theorem natDigits_all_digits (n : Nat) :
    ∀ c ∈ natDigits n, ∃ k, k ≤ 9 ∧ c = digitChar k := by
  induction n using Nat.strong_induction_on with
  | _ n ih =>
    intro c hc
    by_cases h10 : n < 10
    · rw [natDigits_lt10 n h10] at hc
      rcases List.mem_cons.mp hc with h | h
      · exact ⟨n, by omega, h⟩
      · exact absurd h (List.not_mem_nil c)
    · rw [natDigits_ge10 n (by omega)] at hc
      rcases List.mem_append.mp hc with h | h
      · exact ih (n / 10) (Nat.div_lt_self (by omega) (by omega)) c h
      · rcases List.mem_cons.mp h with h' | h'
        · exact ⟨n % 10, by omega, h'⟩
        · exact absurd h' (List.not_mem_nil c)

theorem mem_jsPadStart2 (s : List Char) (c : Char) (h : c ∈ jsPadStart2 s) :
    c = '0' ∨ c ∈ s := by
  unfold jsPadStart2 at h
  split_ifs at h
  · exact Or.inr h
  · rcases List.mem_cons.mp h with h' | h'
    · exact Or.inl h'
    · exact Or.inr h'
  · rcases List.mem_cons.mp h with h' | h'
    · exact Or.inl h'
    · rcases List.mem_cons.mp h' with h'' | h''
      · exact Or.inl h''
      · exact absurd h'' (List.not_mem_nil c)

theorem mem_fmtISO (d : Ymd) (c : Char) (h : c ∈ fmtISO d) :
    c = '-' ∨ ∃ k, k ≤ 9 ∧ c = digitChar k := by
  unfold fmtISO at h
  rcases List.mem_append.mp h with h1 | h1
  · rcases List.mem_append.mp h1 with h2 | h2
    · exact Or.inr (natDigits_all_digits d.year c h2)
    · rcases List.mem_cons.mp h2 with h3 | h3
      · exact Or.inl h3
      · rcases mem_jsPadStart2 _ c h3 with h4 | h4
        · exact Or.inr ⟨0, by omega, h4⟩
        · exact Or.inr (natDigits_all_digits d.month c h4)
  · rcases List.mem_cons.mp h1 with h2 | h2
    · exact Or.inl h2
    · rcases mem_jsPadStart2 _ c h2 with h3 | h3
      · exact Or.inr ⟨0, by omega, h3⟩
      · exact Or.inr (natDigits_all_digits d.day c h3)

theorem fmtISO_no_newline (d : Ymd) : '\n' ∉ fmtISO d := by
  intro h
  rcases mem_fmtISO d '\n' h with h1 | ⟨k, hk, h1⟩
  · exact absurd h1 (by decide)
  · exact digitChar_ne_newline k hk h1.symm

theorem mem_toICSDate (s : List Char) (c : Char) (h : c ∈ toICSDate s) : c ∈ s := by
  unfold toICSDate at h
  exact List.mem_of_mem_filter h

theorem mem_concatAll (x : α) (ls : List (List α)) :
    x ∈ concatAll ls → ∃ l ∈ ls, x ∈ l := by
  induction ls with
  | nil => intro h; exact absurd h (List.not_mem_nil x)
  | cons l ls' ih =>
    intro h
    rcases List.mem_append.mp h with h1 | h1
    · exact ⟨l, List.mem_cons_self l ls', h1⟩
    · obtain ⟨l', hl', hx⟩ := ih h1
      exact ⟨l', List.mem_cons_of_mem l hl', hx⟩

theorem escapeText_no_newline (t : List Char) : '\n' ∉ escapeText t := by
  rw [escapeText_eq_units]
  intro h
  obtain ⟨u, hu, hx⟩ := mem_concatAll '\n' (t.map escUnit) h
  obtain ⟨c, _, hc⟩ := List.mem_map.mp hu
  subst hc
  unfold escUnit at hx
  split_ifs at hx <;> simp at hx
  subst hx
  rename_i h1 h2 h3 h4
  exact h4 rfl

theorem jsTrimLeft_cons_nonws (c : Char) (s : List Char) (h : isJsWs c = false) :
    jsTrimLeft (c :: s) = c :: s := by
  unfold jsTrimLeft
  rw [List.dropWhile_cons, h]
  rfl

theorem jsTrimRight_append (p X : List Char)
    (hp : ∀ c, p.getLast? = some c → isJsWs c = false) :
    jsTrimRight (p ++ X) = p ++ jsTrimRight X := by
  unfold jsTrimRight
  rw [List.reverse_append, List.dropWhile_append]
  by_cases hX : (X.reverse.dropWhile isJsWs).isEmpty = true
  · rw [if_pos hX]
    rw [List.isEmpty_iff] at hX
    rw [hX]
    simp only [List.reverse_nil, List.nil_append]
    cases hpr : p.reverse with
    | nil =>
      have : p = [] := by
        have := congrArg List.reverse hpr
        simpa using this
      simp [this]
    | cons d pr' =>
      have hd : p.getLast? = some d := by
        rw [List.getLast?_eq_head?_reverse, hpr]
        rfl
      rw [List.dropWhile_cons, hp d hd]
      rw [if_neg (by simp)]
      rw [← hpr, List.reverse_reverse]
      exact (List.append_nil p).symm
  · rw [if_neg hX]
    rw [List.reverse_append, List.reverse_reverse]

theorem jsTrim_prefix (p X : List Char) (hne : p ≠ [])
    (hhead : ∀ c, p.head? = some c → isJsWs c = false)
    (hlast : ∀ c, p.getLast? = some c → isJsWs c = false) :
    jsTrim (p ++ X) = p ++ jsTrimRight X := by
  unfold jsTrim
  cases p with
  | nil => exact absurd rfl hne
  | cons c p' =>
    rw [List.cons_append, jsTrimLeft_cons_nonws c (p' ++ X) (hhead c rfl),
        ← List.cons_append, jsTrimRight_append _ _ hlast]

theorem jsTrimRight_all_nonws (s : List Char) (h : ∀ c ∈ s, isJsWs c = false) :
    jsTrimRight s = s := by
  unfold jsTrimRight
  cases hsr : s.reverse with
  | nil =>
    have : s = [] := by
      have := congrArg List.reverse hsr
      simpa using this
    simp [this]
  | cons d sr' =>
    have hd : d ∈ s := by
      have : d ∈ s.reverse := by rw [hsr]; exact List.mem_cons_self d sr'
      exact List.mem_reverse.mp this
    rw [List.dropWhile_cons, h d hd]
    rw [if_neg (by simp)]
    rw [← hsr, List.reverse_reverse]

theorem splitAtColon_cons (c : Char) (rest : List Char) :
    splitAtColon (c :: rest) =
      if c = ':' then some ([], rest)
      else
        match splitAtColon rest with
        | none => none
        | some (k, v) => some (c :: k, v) := rfl

theorem splitAtColon_prefix (p Y : List Char) (hp : ∀ c ∈ p, c ≠ ':') :
    splitAtColon (p ++ ':' :: Y) = some (p, Y) := by
  induction p with
  | nil => rw [List.nil_append, splitAtColon_cons, if_pos rfl]
  | cons c p' ih =>
    rw [List.cons_append, splitAtColon_cons,
        if_neg (hp c (List.mem_cons_self c p')),
        ih (fun x hx => hp x (List.mem_cons_of_mem c hx))]

theorem fmtICS_ne_nil (d : Ymd) : fmtICS d ≠ [] := by
  unfold fmtICS
  intro h
  exact natDigits_ne_nil d.year (List.append_eq_nil.mp (List.append_eq_nil.mp h).1).1

theorem stripZ_of_ne (s : List Char) (h : s.getLast? ≠ some 'Z') : stripZ s = s := by
  unfold stripZ
  rw [if_neg h]

theorem digitChar_filter_dash (k : Nat) (h : k ≤ 9) :
    (! (digitChar k == '-')) = true := by
  interval_cases k <;> decide

theorem digitChar_filter_colon (k : Nat) (h : k ≤ 9) :
    (! (digitChar k == ':')) = true := by
  interval_cases k <;> decide

theorem toICSDate_fmtISO (d : Ymd) (hv : validYmd d) :
    toICSDate (fmtISO d) = fmtICS d := by
  obtain ⟨h1, h2, h3, h4, h5, h6⟩ := hv
  have h31 := daysInMonth_le_31 d.year d.month
  rw [fmtISO_explicit d ⟨h1, h2, h3, h4, h5, h6⟩, fmtICS_explicit d ⟨h1, h2, h3, h4, h5, h6⟩]
  unfold toICSDate
  rw [List.filter_cons_of_pos (by exact digitChar_filter_dash _ (by omega)),
      List.filter_cons_of_pos (by exact digitChar_filter_dash _ (by omega)),
      List.filter_cons_of_pos (by exact digitChar_filter_dash _ (by omega)),
      List.filter_cons_of_pos (by exact digitChar_filter_dash _ (by omega)),
      List.filter_cons_of_neg (by decide),
      List.filter_cons_of_pos (by exact digitChar_filter_dash _ (by omega)),
      List.filter_cons_of_pos (by exact digitChar_filter_dash _ (by omega)),
      List.filter_cons_of_neg (by decide),
      List.filter_cons_of_pos (by exact digitChar_filter_dash _ (by omega)),
      List.filter_cons_of_pos (by exact digitChar_filter_dash _ (by omega))]
  rfl

theorem pad2_filter_colon (k : Nat) (hk : k ≤ 99) :
    (pad2 k).filter (fun c => ! (c == ':')) = pad2 k := by
  unfold pad2
  rw [List.filter_cons_of_pos (by exact digitChar_filter_colon _ (by omega)),
      List.filter_cons_of_pos (by exact digitChar_filter_colon _ (by omega))]
  rfl

theorem toICSDateTime_fmt (d : Ymd) (hv : validYmd d) (h m : Nat)
    (hh : h ≤ 99) (hm : m ≤ 99) :
    toICSDateTime (fmtISO d) (timeHM h m) =
      fmtICS d ++ 'T' :: (pad2 h ++ pad2 m ++ ['0', '0']) := by
  unfold toICSDateTime timeHM
  rw [toICSDate_fmtISO d hv, List.filter_append, pad2_filter_colon h hh,
      List.filter_cons_of_neg (by decide), pad2_filter_colon m hm]
  simp [List.append_assoc]

theorem parseDTValue_8digits (a b c d e f g h : Nat) (hh : h ≤ 9) :
    parseDTValue [digitChar a, digitChar b, digitChar c, digitChar d,
                  digitChar e, digitChar f, digitChar g, digitChar h]
      = ⟨[digitChar a, digitChar b, digitChar c, digitChar d, '-',
          digitChar e, digitChar f, '-', digitChar g, digitChar h], none⟩ := by
  unfold parseDTValue
  rw [if_neg (by simp)]
  rw [show stripZ [digitChar a, digitChar b, digitChar c, digitChar d,
        digitChar e, digitChar f, digitChar g, digitChar h]
      = [digitChar a, digitChar b, digitChar c, digitChar d,
         digitChar e, digitChar f, digitChar g, digitChar h] from
    stripZ_of_ne _ (fun hc => digitChar_ne_Z h hh (Option.some.inj hc))]
  rfl

theorem parseDTValue_fmtICS (d : Ymd) (hv : validYmd d) :
    parseDTValue (fmtICS d) = ⟨fmtISO d, none⟩ := by
  obtain ⟨h1, h2, h3, h4, h5, h6⟩ := hv
  have h31 := daysInMonth_le_31 d.year d.month
  rw [fmtICS_explicit d ⟨h1, h2, h3, h4, h5, h6⟩,
      fmtISO_explicit d ⟨h1, h2, h3, h4, h5, h6⟩]
  exact parseDTValue_8digits _ _ _ _ _ _ _ _ (by omega)

theorem parseDTValue_15digits (a b c d e f g h t1 t2 t3 t4 : Nat) :
    parseDTValue ([digitChar a, digitChar b, digitChar c, digitChar d,
                   digitChar e, digitChar f, digitChar g, digitChar h] ++
        'T' :: ([digitChar t1, digitChar t2] ++ [digitChar t3, digitChar t4] ++ ['0', '0']))
      = ⟨[digitChar a, digitChar b, digitChar c, digitChar d, '-',
          digitChar e, digitChar f, '-', digitChar g, digitChar h],
         some [digitChar t1, digitChar t2, ':', digitChar t3, digitChar t4]⟩ := by
  unfold parseDTValue
  rw [if_neg (by simp)]
  rw [show stripZ ([digitChar a, digitChar b, digitChar c, digitChar d,
        digitChar e, digitChar f, digitChar g, digitChar h] ++
        'T' :: ([digitChar t1, digitChar t2] ++ [digitChar t3, digitChar t4] ++ ['0', '0']))
      = [digitChar a, digitChar b, digitChar c, digitChar d,
         digitChar e, digitChar f, digitChar g, digitChar h,
         'T', digitChar t1, digitChar t2, digitChar t3, digitChar t4, '0', '0'] from
    stripZ_of_ne _ (by
      rw [show ([digitChar a, digitChar b, digitChar c, digitChar d,
          digitChar e, digitChar f, digitChar g, digitChar h] ++
          'T' :: ([digitChar t1, digitChar t2] ++ [digitChar t3, digitChar t4]
            ++ ['0', '0'])).getLast? = some '0' from rfl]
      simp)]
  rw [if_neg (by simp), if_pos ⟨by simp, by simp⟩]
  rfl

theorem decrementISO_fmtISO (d : Ymd) (hv : validYmd d) :
    decrementISO (fmtISO d) = fmtISO (datePred d) := by
  obtain ⟨h1, h2, h3, h4, h5, h6⟩ := hv
  have h0 : ¬(d.year = 0 ∧ d.month = 1 ∧ d.day = 1) := by omega
  unfold decrementISO
  rw [isoParse_fmtISO d ⟨h1, h2, h3, h4, h5, h6⟩]
  show (if d.year = 0 ∧ d.month = 1 ∧ d.day = 1 then ("-1-12-31").data
        else fmtISO (datePred d)) = fmtISO (datePred d)
  rw [if_neg h0]

theorem head_nonws_of_cons (c : Char) (rest : List Char) (h : isJsWs c = false) :
    ∀ x, ((c :: rest).head? = some x) → isJsWs x = false := by
  intro x hx
  rw [List.head?_cons] at hx
  exact Option.some.inj hx ▸ h

theorem last_nonws_of_eq (p : List Char) (d : Char) (hp : p.getLast? = some d)
    (h : isJsWs d = false) : ∀ c, p.getLast? = some c → isJsWs c = false := by
  intro c hc
  rw [hp] at hc
  exact Option.some.inj hc ▸ h

theorem ne_of_head_ne (c d : Char) (x y : List Char) (h : c ≠ d) : c :: x ≠ d :: y := by
  intro hc
  injection hc with h1 _
  exact h h1

theorem step_prop (s : ParseState) (p X : List Char) (hin : s.inEvent = true)
    (hne : p ≠ []) (hh : ∀ c, p.head? = some c → isJsWs c = false)
    (hcolon : ∀ c ∈ p, c ≠ ':')
    (hnB : p ++ ':' :: jsTrimRight X ≠ ("BEGIN:VEVENT").data)
    (hnE : p ++ ':' :: jsTrimRight X ≠ ("END:VEVENT").data) :
    step s (p ++ ':' :: X) =
      (if takeBeforeSemi (jsToUpper p) = ("DTSTART").data then
        ⟨s.events, s.inEvent,
         ⟨jsTrimRight X, s.current.dtend, s.current.summary, s.current.description⟩⟩
       else if takeBeforeSemi (jsToUpper p) = ("DTEND").data then
        ⟨s.events, s.inEvent,
         ⟨s.current.dtstart, jsTrimRight X, s.current.summary, s.current.description⟩⟩
       else if takeBeforeSemi (jsToUpper p) = ("SUMMARY").data then
        ⟨s.events, s.inEvent,
         ⟨s.current.dtstart, s.current.dtend, unescapeText (jsTrimRight X),
          s.current.description⟩⟩
       else if takeBeforeSemi (jsToUpper p) = ("DESCRIPTION").data then
        ⟨s.events, s.inEvent,
         ⟨s.current.dtstart, s.current.dtend, s.current.summary,
          unescapeText (jsTrimRight X)⟩⟩
       else s) := by
  have hlast : ∀ c, (p ++ [':']).getLast? = some c → isJsWs c = false := by
    apply last_nonws_of_eq (p ++ [':']) ':'
    · rw [List.getLast?_concat]
    · decide
  have hhead : ∀ c, (p ++ [':']).head? = some c → isJsWs c = false := by
    intro c hc
    cases p with
    | nil => exact absurd rfl hne
    | cons a p' =>
      rw [List.cons_append, List.head?_cons] at hc
      exact hh c (by rw [List.head?_cons, Option.some.inj hc])
  have htrim : jsTrim (p ++ ':' :: X) = p ++ ':' :: jsTrimRight X := by
    rw [show p ++ ':' :: X = (p ++ [':']) ++ X by simp,
        jsTrim_prefix (p ++ [':']) X (by simp) hhead hlast]
    simp
  unfold step
  rw [htrim, if_neg hnB, if_neg hnE, if_neg (by simp [hin]),
      show p ++ ':' :: jsTrimRight X = p ++ ':' :: jsTrimRight X from rfl,
      splitAtColon_prefix p (jsTrimRight X) hcolon]

theorem junk_of_prop_unrecognized (l : List Char) (p X : List Char)
    (hl : l = p ++ ':' :: X)
    (hne : p ≠ []) (hh : ∀ c, p.head? = some c → isJsWs c = false)
    (hcolon : ∀ c ∈ p, c ≠ ':')
    (hnB : p ++ ':' :: jsTrimRight X ≠ ("BEGIN:VEVENT").data)
    (hnE : p ++ ':' :: jsTrimRight X ≠ ("END:VEVENT").data)
    (hkey : takeBeforeSemi (jsToUpper p) ≠ ("DTSTART").data ∧
            takeBeforeSemi (jsToUpper p) ≠ ("DTEND").data ∧
            takeBeforeSemi (jsToUpper p) ≠ ("SUMMARY").data ∧
            takeBeforeSemi (jsToUpper p) ≠ ("DESCRIPTION").data) :
    ∀ s : ParseState, step s l = s := by
  intro s
  subst hl
  by_cases hin : s.inEvent = true
  · rw [step_prop s p X hin hne hh hcolon hnB hnE,
        if_neg hkey.1, if_neg hkey.2.1, if_neg hkey.2.2.1, if_neg hkey.2.2.2]
  · have hlast : ∀ c, (p ++ [':']).getLast? = some c → isJsWs c = false := by
      apply last_nonws_of_eq (p ++ [':']) ':'
      · rw [List.getLast?_concat]
      · decide
    have hhead : ∀ c, (p ++ [':']).head? = some c → isJsWs c = false := by
      intro c hc
      cases p with
      | nil => exact absurd rfl hne
      | cons a p' =>
        rw [List.cons_append, List.head?_cons] at hc
        exact hh c (by rw [List.head?_cons, Option.some.inj hc])
    have htrim : jsTrim (p ++ ':' :: X) = p ++ ':' :: jsTrimRight X := by
      rw [show p ++ ':' :: X = (p ++ [':']) ++ X by simp,
          jsTrim_prefix (p ++ [':']) X (by simp) hhead hlast]
      simp
    unfold step
    rw [htrim, if_neg hnB, if_neg hnE,
        if_pos (by revert hin; cases s.inEvent <;> simp)]

theorem step_UID (X : List Char) (s : ParseState) :
    step s (("UID:").data ++ X) = s :=
  junk_of_prop_unrecognized _ ("UID").data X rfl (by decide)
    (head_nonws_of_cons 'U' _ (by decide)) (by decide)
    (ne_of_head_ne 'U' 'B' _ _ (by decide)) (ne_of_head_ne 'U' 'E' _ _ (by decide))
    (by decide) s

theorem step_DTSTAMP (X : List Char) (s : ParseState) :
    step s (("DTSTAMP:").data ++ X) = s :=
  junk_of_prop_unrecognized _ ("DTSTAMP").data X rfl (by decide)
    (head_nonws_of_cons 'D' _ (by decide)) (by decide)
    (ne_of_head_ne 'D' 'B' _ _ (by decide)) (ne_of_head_ne 'D' 'E' _ _ (by decide))
    (by decide) s

theorem step_DTSTART_VDATE (s : ParseState) (X : List Char) (hin : s.inEvent = true) :
    step s (("DTSTART;VALUE=DATE:").data ++ X) =
      ⟨s.events, s.inEvent,
       ⟨jsTrimRight X, s.current.dtend, s.current.summary, s.current.description⟩⟩ := by
  rw [show ("DTSTART;VALUE=DATE:").data ++ X
        = ("DTSTART;VALUE=DATE").data ++ ':' :: X from rfl,
      step_prop s ("DTSTART;VALUE=DATE").data X hin (by decide)
        (head_nonws_of_cons 'D' _ (by decide)) (by decide)
        (ne_of_head_ne 'D' 'B' _ _ (by decide)) (ne_of_head_ne 'D' 'E' _ _ (by decide)),
      if_pos (by decide)]

theorem step_DTEND_VDATE (s : ParseState) (X : List Char) (hin : s.inEvent = true) :
    step s (("DTEND;VALUE=DATE:").data ++ X) =
      ⟨s.events, s.inEvent,
       ⟨s.current.dtstart, jsTrimRight X, s.current.summary, s.current.description⟩⟩ := by
  rw [show ("DTEND;VALUE=DATE:").data ++ X
        = ("DTEND;VALUE=DATE").data ++ ':' :: X from rfl,
      step_prop s ("DTEND;VALUE=DATE").data X hin (by decide)
        (head_nonws_of_cons 'D' _ (by decide)) (by decide)
        (ne_of_head_ne 'D' 'B' _ _ (by decide)) (ne_of_head_ne 'D' 'E' _ _ (by decide)),
      if_neg (by decide), if_pos (by decide)]

theorem step_DTSTART_plain (s : ParseState) (X : List Char) (hin : s.inEvent = true) :
    step s (("DTSTART:").data ++ X) =
      ⟨s.events, s.inEvent,
       ⟨jsTrimRight X, s.current.dtend, s.current.summary, s.current.description⟩⟩ := by
  rw [show ("DTSTART:").data ++ X = ("DTSTART").data ++ ':' :: X from rfl,
      step_prop s ("DTSTART").data X hin (by decide)
        (head_nonws_of_cons 'D' _ (by decide)) (by decide)
        (ne_of_head_ne 'D' 'B' _ _ (by decide)) (ne_of_head_ne 'D' 'E' _ _ (by decide)),
      if_pos (by decide)]

theorem step_DTEND_plain (s : ParseState) (X : List Char) (hin : s.inEvent = true) :
    step s (("DTEND:").data ++ X) =
      ⟨s.events, s.inEvent,
       ⟨s.current.dtstart, jsTrimRight X, s.current.summary, s.current.description⟩⟩ := by
  rw [show ("DTEND:").data ++ X = ("DTEND").data ++ ':' :: X from rfl,
      step_prop s ("DTEND").data X hin (by decide)
        (head_nonws_of_cons 'D' _ (by decide)) (by decide)
        (ne_of_head_ne 'D' 'B' _ _ (by decide)) (ne_of_head_ne 'D' 'E' _ _ (by decide)),
      if_neg (by decide), if_pos (by decide)]

theorem step_SUMMARY (s : ParseState) (X : List Char) (hin : s.inEvent = true) :
    step s (("SUMMARY:").data ++ X) =
      ⟨s.events, s.inEvent,
       ⟨s.current.dtstart, s.current.dtend, unescapeText (jsTrimRight X),
        s.current.description⟩⟩ := by
  rw [show ("SUMMARY:").data ++ X = ("SUMMARY").data ++ ':' :: X from rfl,
      step_prop s ("SUMMARY").data X hin (by decide)
        (head_nonws_of_cons 'S' _ (by decide)) (by decide)
        (ne_of_head_ne 'S' 'B' _ _ (by decide)) (ne_of_head_ne 'S' 'E' _ _ (by decide)),
      if_neg (by decide), if_neg (by decide), if_pos (by decide)]

theorem step_DESCRIPTION (s : ParseState) (X : List Char) (hin : s.inEvent = true) :
    step s (("DESCRIPTION:").data ++ X) =
      ⟨s.events, s.inEvent,
       ⟨s.current.dtstart, s.current.dtend, s.current.summary,
        unescapeText (jsTrimRight X)⟩⟩ := by
  rw [show ("DESCRIPTION:").data ++ X = ("DESCRIPTION").data ++ ':' :: X from rfl,
      step_prop s ("DESCRIPTION").data X hin (by decide)
        (head_nonws_of_cons 'D' _ (by decide)) (by decide)
        (ne_of_head_ne 'D' 'B' _ _ (by decide)) (ne_of_head_ne 'D' 'E' _ _ (by decide)),
      if_neg (by decide), if_neg (by decide), if_neg (by decide), if_pos (by decide)]

theorem step_BEGIN_VEVENT (s : ParseState) :
    step s (("BEGIN:VEVENT").data) = ⟨s.events, true, ⟨[], [], [], []⟩⟩ := by
  unfold step
  rw [show jsTrim (("BEGIN:VEVENT").data) = ("BEGIN:VEVENT").data from rfl, if_pos rfl]

theorem step_END_VEVENT (s : ParseState) :
    step s (("END:VEVENT").data) =
      ⟨if s.current.dtstart ≠ [] then s.events ++ [finalizeBag s.current] else s.events,
       false, s.current⟩ := by
  unfold step
  rw [show jsTrim (("END:VEVENT").data) = ("END:VEVENT").data from rfl,
      if_neg (by decide), if_pos rfl]

theorem unfold_foldTail_append (n : Nat) :
    ∀ (s t : List Char), s.length ≤ n → s ≠ [] → '\n' ∉ s →
      (∀ c, t.head? = some c → c ≠ ' ' ∧ c ≠ '\t') →
      unfold ('\r' :: '\n' :: (joinCRLF (foldParts s) ++ '\r' :: '\n' :: t))
        = s ++ '\r' :: '\n' :: unfold t := by
  induction n with
  | zero =>
    intro s t hlen hne _ _
    exact absurd (List.length_eq_zero.mp (by omega)) hne
  | succ n ih =>
    intro s t hlen hne hnl ht
    rw [foldParts_cons s hne]
    by_cases hd : s.drop 74 = []
    · have hle : s.length ≤ 74 := by
        have := List.length_drop 74 s
        have := congrArg List.length hd
        simp at this
        omega
      rw [hd, foldParts_nil]
      have htake : s.take 74 = s := List.take_of_length_le hle
      rw [htake]
      rw [show joinCRLF [' ' :: s] = ' ' :: s from rfl]
      rw [show (' ' :: s) ++ '\r' :: '\n' :: t = ' ' :: (s ++ '\r' :: '\n' :: t) from rfl]
      rw [unfold_crlf_ws ' ' (Or.inl rfl)]
      rw [unfold_append_safe s _ hnl (by simp), unfold_crlf_step t ht]
    · obtain ⟨q, qs, hq⟩ : ∃ q qs, foldParts (s.drop 74) = q :: qs := by
        cases hfp : foldParts (s.drop 74) with
        | nil => exact absurd hfp (foldParts_ne_nil _ hd)
        | cons q qs => exact ⟨q, qs, rfl⟩
      rw [hq, joinCRLF_cons2]
      rw [show ((' ' :: s.take 74) ++ '\r' :: '\n' :: joinCRLF (q :: qs)) ++ '\r' :: '\n' :: t
            = ' ' :: (s.take 74 ++ ('\r' :: '\n' :: (joinCRLF (q :: qs) ++ '\r' :: '\n' :: t)))
          from by simp]
      rw [unfold_crlf_ws ' ' (Or.inl rfl)]
      rw [unfold_append_safe (s.take 74) _
          (fun hh => hnl (List.take_subset 74 s hh)) (by simp)]
      have hds : (s.drop 74).length ≤ n := by
        have := List.length_drop 74 s
        have hpos : 0 < s.length := List.length_pos.mpr hne
        omega
      rw [← hq, ih (s.drop 74) t hds hd (fun hh => hnl (List.drop_subset 74 s hh)) ht,
          ← List.append_assoc, List.take_append_drop]

theorem unfold_foldLine_append (l t : List Char) (hnl : '\n' ∉ l)
    (ht : ∀ c, t.head? = some c → c ≠ ' ' ∧ c ≠ '\t') :
    unfold (foldLine l ++ '\r' :: '\n' :: t) = l ++ '\r' :: '\n' :: unfold t := by
  unfold foldLine
  by_cases hlen : l.length ≤ 75
  · rw [if_pos hlen, unfold_append_safe l _ hnl (by simp), unfold_crlf_step t ht]
  · rw [if_neg hlen]
    have hdne : l.drop 75 ≠ [] := by
      intro hh
      have := congrArg List.length hh
      simp at this
      omega
    obtain ⟨q, qs, hq⟩ : ∃ q qs, foldParts (l.drop 75) = q :: qs := by
      cases hfp : foldParts (l.drop 75) with
      | nil => exact absurd hfp (foldParts_ne_nil _ hdne)
      | cons q qs => exact ⟨q, qs, rfl⟩
    rw [hq, joinCRLF_cons2]
    rw [show (l.take 75 ++ '\r' :: '\n' :: joinCRLF (q :: qs)) ++ '\r' :: '\n' :: t
          = l.take 75 ++ ('\r' :: '\n' :: (joinCRLF (q :: qs) ++ '\r' :: '\n' :: t))
        from by simp]
    rw [unfold_append_safe (l.take 75) _
        (fun hh => hnl (List.take_subset 75 l hh)) (by simp)]
    rw [← hq, unfold_foldTail_append (l.drop 75).length (l.drop 75) t le_rfl hdne
        (fun hh => hnl (List.drop_subset 75 l hh)) ht,
        ← List.append_assoc, List.take_append_drop]

theorem foldLine_head (c : Char) (l' : List Char) :
    ∃ r, foldLine (c :: l') = c :: r := by
  unfold foldLine
  by_cases hlen : (c :: l').length ≤ 75
  · rw [if_pos hlen]
    exact ⟨l', rfl⟩
  · rw [if_neg hlen]
    have hdne : (c :: l').drop 75 ≠ [] := by
      intro hh
      have h1 := congrArg List.length hh
      rw [List.length_drop] at h1
      simp only [List.length_nil] at h1
      omega
    obtain ⟨q, qs, hq⟩ : ∃ q qs, foldParts ((c :: l').drop 75) = q :: qs := by
      cases hfp : foldParts ((c :: l').drop 75) with
      | nil => exact absurd hfp (foldParts_ne_nil _ hdne)
      | cons q qs => exact ⟨q, qs, rfl⟩
    rw [hq, joinCRLF_cons2]
    rw [show (c :: l').take 75 = c :: l'.take 74 from rfl]
    exact ⟨l'.take 74 ++ '\r' :: '\n' :: joinCRLF (q :: qs), rfl⟩

theorem joinCRLF_head (c : Char) (r : List Char) (xs : List (List Char)) :
    ∃ z, joinCRLF ((c :: r) :: xs) = c :: z := by
  cases xs with
  | nil => exact ⟨r, rfl⟩
  | cons x xs' => exact ⟨r ++ '\r' :: '\n' :: joinCRLF (x :: xs'), rfl⟩

theorem unfold_doc (L : List (List Char))
    (hL : ∀ l ∈ L, l ≠ [] ∧ '\n' ∉ l ∧ ∀ c, l.head? = some c → c ≠ ' ' ∧ c ≠ '\t') :
    unfold (joinCRLF (L.map foldLine) ++ ['\r', '\n']) = joinCRLF L ++ ['\r', '\n'] := by
  induction L with
  | nil => rfl
  | cons l L' ih =>
    obtain ⟨hlne, hlnl, hlhead⟩ := hL l (List.mem_cons_self l L')
    cases L' with
    | nil =>
      rw [show joinCRLF (List.map foldLine [l]) = foldLine l from rfl,
          show joinCRLF [l] = l from rfl,
          show foldLine l ++ ['\r', '\n'] = foldLine l ++ '\r' :: '\n' :: [] from rfl,
          unfold_foldLine_append l [] hlnl (by simp)]
      rfl
    | cons l2 L'' =>
      obtain ⟨hl2ne, _, hl2head⟩ := hL l2 (List.mem_cons_of_mem l (List.mem_cons_self l2 L''))
      obtain ⟨c2, l2', hc2⟩ : ∃ c2 l2', l2 = c2 :: l2' := by
        cases l2 with
        | nil => exact absurd rfl hl2ne
        | cons a b => exact ⟨a, b, rfl⟩
      rw [List.map_cons, List.map_cons, joinCRLF_cons2]
      rw [show (foldLine l ++ '\r' :: '\n' :: joinCRLF (foldLine l2 :: List.map foldLine L''))
              ++ ['\r', '\n']
            = foldLine l ++ '\r' :: '\n'
              :: (joinCRLF (foldLine l2 :: List.map foldLine L'') ++ ['\r', '\n'])
          from by simp]
      have hthead : ∀ c, (joinCRLF (foldLine l2 :: List.map foldLine L'') ++ ['\r', '\n']).head?
          = some c → c ≠ ' ' ∧ c ≠ '\t' := by
        intro c hc
        obtain ⟨r2, hr2⟩ := foldLine_head c2 l2'
        rw [← hc2] at hr2
        obtain ⟨z, hz⟩ := joinCRLF_head c2 r2 (List.map foldLine L'')
        rw [hr2, hz, List.cons_append, List.head?_cons] at hc
        have hcc : c = c2 := (Option.some.inj hc).symm
        subst hcc
        exact hl2head c (by rw [hc2, List.head?_cons])
      have ih' := ih (fun x hx => hL x (List.mem_cons_of_mem l hx))
      rw [List.map_cons] at ih'
      rw [unfold_foldLine_append l _ hlnl hthead, ih', joinCRLF_cons2]
      simp

theorem splitLines_doc (L : List (List Char)) (hne : L ≠ [])
    (hnl : ∀ l ∈ L, '\n' ∉ l) :
    splitLines (joinCRLF L ++ ['\r', '\n']) = L ++ [[]] := by
  induction L with
  | nil => exact absurd rfl hne
  | cons l L' ih =>
    cases L' with
    | nil =>
      rw [show joinCRLF [l] = l from rfl,
          show l ++ ['\r', '\n'] = l ++ '\r' :: '\n' :: [] from rfl,
          splitLines_append l [] (hnl l (List.mem_cons_self l []))]
      rfl
    | cons l2 L'' =>
      rw [joinCRLF_cons2]
      rw [show (l ++ '\r' :: '\n' :: joinCRLF (l2 :: L'')) ++ ['\r', '\n']
            = l ++ '\r' :: '\n' :: (joinCRLF (l2 :: L'') ++ ['\r', '\n']) from by simp]
      rw [splitLines_append l _ (hnl l (List.mem_cons_self l _)),
          ih (by simp) (fun x hx => hnl x (List.mem_cons_of_mem l hx))]
      rfl

theorem parse_transport (today : Ymd) (evs : List EventRec)
    (hL : ∀ l ∈ docLines today evs,
        l ≠ [] ∧ '\n' ∉ l ∧ ∀ c, l.head? = some c → c ≠ ' ' ∧ c ≠ '\t') :
    parseICS (eventsToICS today evs) = parseICSLines (docLines today evs ++ [[]]) := by
  unfold parseICS eventsToICS
  rw [unfold_doc (docLines today evs) hL,
      splitLines_doc (docLines today evs) (by unfold docLines; simp)
        (fun l hl => (hL l hl).2.1)]


theorem mem_fmtICS (d : Ymd) (hv : validYmd d) (c : Char) (h : c ∈ fmtICS d) :
    ∃ k, k ≤ 9 ∧ c = digitChar k := by
  rw [← toICSDate_fmtISO d hv] at h
  unfold toICSDate at h
  obtain ⟨hmem, hpred⟩ := List.mem_filter.mp h
  rcases mem_fmtISO d c hmem with h1 | h1
  · subst h1
    exact absurd hpred (by decide)
  · exact h1

theorem jsTrimRight_fmtICS (d : Ymd) (hv : validYmd d) :
    jsTrimRight (fmtICS d) = fmtICS d := by
  apply jsTrimRight_all_nonws
  intro c hc
  obtain ⟨k, hk, hck⟩ := mem_fmtICS d hv c hc
  rw [hck]
  exact digitChar_not_ws k hk

theorem fmtICS_no_newline (d : Ymd) (hv : validYmd d) : '\n' ∉ fmtICS d := by
  intro h
  obtain ⟨k, hk, hck⟩ := mem_fmtICS d hv '\n' h
  have h2 := digitChar_not_ws k hk
  rw [← hck] at h2
  exact absurd h2 (by decide)

theorem step_END_VCALENDAR (s : ParseState) : step s (("END:VCALENDAR").data) = s :=
  junk_of_prop_unrecognized _ ("END").data ("VCALENDAR").data rfl (by decide)
    (head_nonws_of_cons 'E' _ (by decide)) (by decide)
    (by decide) (by decide) (by decide) s

theorem step_nil_line (s : ParseState) : step s [] = s := by
  unfold step
  rw [show jsTrim ([] : List Char) = [] from rfl, if_neg (by decide), if_neg (by decide)]
  by_cases hin : s.inEvent = false
  · rw [if_pos hin]
  · rw [if_neg hin]
    rfl

theorem docLineOK (c0 : Char) (p X : List Char)
    (hc : c0 ≠ '\n' ∧ c0 ≠ ' ' ∧ c0 ≠ '\t') (hp : '\n' ∉ p) (hX : '\n' ∉ X) :
    (c0 :: p) ++ X ≠ [] ∧ '\n' ∉ (c0 :: p) ++ X ∧
      ∀ c, ((c0 :: p) ++ X).head? = some c → c ≠ ' ' ∧ c ≠ '\t' := by
  refine ⟨by simp, ?_, ?_⟩
  · intro h
    rcases List.mem_append.mp h with h | h
    · rcases List.mem_cons.mp h with h | h
      · exact hc.1 h.symm
      · exact hp h
    · exact hX h
  · intro c hcc
    rw [List.cons_append, List.head?_cons] at hcc
    have he := Option.some.inj hcc
    subst he
    exact ⟨hc.2.1, hc.2.2⟩

theorem docLineOK2 (c0 : Char) (p : List Char)
    (hc : c0 ≠ '\n' ∧ c0 ≠ ' ' ∧ c0 ≠ '\t') (hp : '\n' ∉ p) :
    c0 :: p ≠ [] ∧ '\n' ∉ c0 :: p ∧
      ∀ c, (c0 :: p).head? = some c → c ≠ ' ' ∧ c ≠ '\t' := by
  refine ⟨by simp, ?_, ?_⟩
  · intro h
    rcases List.mem_cons.mp h with h | h
    · exact hc.1 h.symm
    · exact hp h
  · intro c hcc
    rw [List.head?_cons] at hcc
    have he := Option.some.inj hcc
    subst he
    exact ⟨hc.2.1, hc.2.2⟩

theorem eventToVEvent_allday (today : Ymd) (ev : EventRec)
    (hsdne : ev.startDate ≠ []) (hedne : ev.endDate ≠ [])
    (hst : ev.startTime = []) :
    eventToVEvent today ev =
      [("BEGIN:VEVENT").data,
       ("UID:").data ++ makeUID ev,
       ("DTSTAMP:").data ++ (toICSDate (fmtISO today) ++ ("T000000Z").data),
       ("DTSTART;VALUE=DATE:").data ++ toICSDate ev.startDate,
       ("DTEND;VALUE=DATE:").data ++ nextDayICS ev.endDate,
       ("SUMMARY:").data ++ escapeText ev.title]
      ++ (if ev.description ≠ [] then
            [("DESCRIPTION:").data ++ escapeText ev.description] else [])
      ++ [("END:VEVENT").data] := by
  unfold eventToVEvent
  dsimp only
  rw [hst, if_pos hsdne, if_pos hedne,
      if_neg (fun hc : ([] : List Char) ≠ [] => hc rfl)]
  simp

theorem finalizeBag_allday (sd ed : Ymd) (S D : List Char)
    (hvsd : validYmd sd) (hved : validYmd ed) (h9 : ed.year ≤ 9998)
    (hord : dateKey sd ≤ dateKey ed) :
    finalizeBag ⟨fmtICS sd, fmtICS (dateSucc ed), S, D⟩ =
      ⟨if S ≠ [] then S else ("Événement importé").data,
       fmtISO sd, fmtISO ed, fmtISO sd, [], [], D⟩ := by
  have hvsucc := validYmd_dateSucc ed hved h9
  have hne : fmtISO (dateSucc ed) ≠ fmtISO sd := by
    intro h
    have heq := fmtISO_injOn (dateSucc ed) sd hvsucc hvsd h
    have hk := dateKey_lt_succ ed hved
    rw [heq] at hk
    omega
  unfold finalizeBag
  dsimp only
  rw [parseDTValue_fmtICS sd hvsd, if_pos (fmtICS_ne_nil (dateSucc ed)),
      parseDTValue_fmtICS (dateSucc ed) hvsucc]
  dsimp only
  have hcond : (none : Option (List Char)) = none ∧ fmtISO (dateSucc ed) ≠ [] ∧
      fmtISO (dateSucc ed) ≠ fmtISO sd := ⟨rfl, fmtISO_ne_nil (dateSucc ed), hne⟩
  rw [if_pos hcond,
      decrementISO_fmtISO (dateSucc ed) hvsucc, datePred_dateSucc ed hved]
  dsimp only
  rw [if_pos (fmtISO_ne_nil ed)]
  rfl


theorem mem_pad2 (k : Nat) (hk : k ≤ 99) (c : Char) (h : c ∈ pad2 k) :
    ∃ j, j ≤ 9 ∧ c = digitChar j := by
  unfold pad2 at h
  rcases List.mem_cons.mp h with h1 | h1
  · exact ⟨k / 10, by omega, h1⟩
  · rcases List.mem_cons.mp h1 with h2 | h2
    · exact ⟨k % 10, by omega, h2⟩
    · exact absurd h2 (List.not_mem_nil c)

theorem dtvalue_nonws (d : Ymd) (hv : validYmd d) (th tm : Nat)
    (hth : th ≤ 99) (htm : tm ≤ 99) :
    ∀ c ∈ fmtICS d ++ 'T' :: (pad2 th ++ pad2 tm ++ ['0', '0']), isJsWs c = false := by
  intro c hc
  rcases List.mem_append.mp hc with h1 | h1
  · obtain ⟨k, hk, hck⟩ := mem_fmtICS d hv c h1
    rw [hck]
    exact digitChar_not_ws k hk
  · rcases List.mem_cons.mp h1 with h1 | h1
    · subst h1
      decide
    · rcases List.mem_append.mp h1 with h2 | h2
      · rcases List.mem_append.mp h2 with h3 | h3
        · obtain ⟨j, hj, hcj⟩ := mem_pad2 th hth c h3
          rw [hcj]
          exact digitChar_not_ws j hj
        · obtain ⟨j, hj, hcj⟩ := mem_pad2 tm htm c h3
          rw [hcj]
          exact digitChar_not_ws j hj
      · rcases List.mem_cons.mp h2 with h3 | h3
        · subst h3
          decide
        · rcases List.mem_cons.mp h3 with h4 | h4
          · subst h4
            decide
          · exact absurd h4 (List.not_mem_nil c)

theorem jsTrimRight_dtvalue (d : Ymd) (hv : validYmd d) (th tm : Nat)
    (hth : th ≤ 99) (htm : tm ≤ 99) :
    jsTrimRight (fmtICS d ++ 'T' :: (pad2 th ++ pad2 tm ++ ['0', '0']))
      = fmtICS d ++ 'T' :: (pad2 th ++ pad2 tm ++ ['0', '0']) :=
  jsTrimRight_all_nonws _ (dtvalue_nonws d hv th tm hth htm)

theorem dtvalue_no_newline (d : Ymd) (hv : validYmd d) (th tm : Nat)
    (hth : th ≤ 99) (htm : tm ≤ 99) :
    '\n' ∉ fmtICS d ++ 'T' :: (pad2 th ++ pad2 tm ++ ['0', '0']) := by
  intro hmem
  have h2 := dtvalue_nonws d hv th tm hth htm '\n' hmem
  exact absurd h2 (by decide)

theorem parseDTValue_dtvalue (d : Ymd) (hv : validYmd d) (th tm : Nat) :
    parseDTValue (fmtICS d ++ 'T' :: (pad2 th ++ pad2 tm ++ ['0', '0']))
      = ⟨fmtISO d, some (timeHM th tm)⟩ := by
  obtain ⟨h1, h2, h3, h4, h5, h6⟩ := hv
  rw [fmtICS_explicit d ⟨h1, h2, h3, h4, h5, h6⟩,
      fmtISO_explicit d ⟨h1, h2, h3, h4, h5, h6⟩]
  unfold timeHM pad2
  rw [parseDTValue_15digits]
  rfl

theorem eventToVEvent_timed (today : Ymd) (ev : EventRec)
    (hsdne : ev.startDate ≠ []) (hedne : ev.endDate ≠ [])
    (hst : ev.startTime ≠ []) (het : ev.endTime ≠ []) :
    eventToVEvent today ev =
      [("BEGIN:VEVENT").data,
       ("UID:").data ++ makeUID ev,
       ("DTSTAMP:").data ++ (toICSDate (fmtISO today) ++ ("T000000Z").data),
       ("DTSTART:").data ++ toICSDateTime ev.startDate ev.startTime,
       ("DTEND:").data ++ toICSDateTime ev.endDate ev.endTime,
       ("SUMMARY:").data ++ escapeText ev.title]
      ++ (if ev.description ≠ [] then
            [("DESCRIPTION:").data ++ escapeText ev.description] else [])
      ++ [("END:VEVENT").data] := by
  unfold eventToVEvent
  dsimp only
  rw [if_pos hsdne, if_pos hedne, if_pos hst, if_pos het]
  simp

theorem finalizeBag_timed (sd : Ymd) (hA mA hB mB : Nat) (S D : List Char)
    (hvsd : validYmd sd) :
    finalizeBag ⟨fmtICS sd ++ 'T' :: (pad2 hA ++ pad2 mA ++ ['0', '0']),
                 fmtICS sd ++ 'T' :: (pad2 hB ++ pad2 mB ++ ['0', '0']), S, D⟩ =
      ⟨if S ≠ [] then S else ("Événement importé").data,
       fmtISO sd, fmtISO sd, fmtISO sd, timeHM hA mA, timeHM hB mB, D⟩ := by
  have hdne2 : fmtICS sd ++ 'T' :: (pad2 hB ++ pad2 mB ++ ['0', '0']) ≠ [] := by simp
  unfold finalizeBag
  dsimp only
  rw [if_pos hdne2, parseDTValue_dtvalue sd hvsd hA mA, parseDTValue_dtvalue sd hvsd hB mB]
  dsimp only
  have hcond : ¬((some (timeHM hA mA) : Option (List Char)) = none ∧
      fmtISO sd ≠ [] ∧ fmtISO sd ≠ fmtISO sd) := fun hc => hc.2.2 rfl
  rw [if_neg hcond]
  dsimp only
  rw [if_pos (fmtISO_ne_nil sd)]
  rfl

end ICS

open ICS

/-- C10: the decoder matches property keys inside a block case-insensitively
(a lowercase `dtstart` line is recognized, and yields the same record list
as the uppercase spelling), trims leading and trailing whitespace from
every physical line, but compares the block delimiters exactly against the
uppercase strings `BEGIN:VEVENT` and `END:VEVENT` after trimming, so a
lowercase `begin:vevent` opens no block and its properties produce no
record. -/
theorem C10_keys_case_insensitive_delimiters_exact :
    (parseICS ("BEGIN:VEVENT\ndtstart:20260714\nEND:VEVENT").data).map
        (fun e => e.startDate) = [("2026-07-14").data]
    ∧ parseICS ("BEGIN:VEVENT\ndtstart:20260714\nEND:VEVENT").data
        = parseICS ("BEGIN:VEVENT\nDTSTART:20260714\nEND:VEVENT").data
    ∧ (parseICS (" \t BEGIN:VEVENT \t \nDTSTART:20260714  \nEND:VEVENT ").data).map
        (fun e => e.startDate) = [("2026-07-14").data]
    ∧ parseICS ("begin:vevent\nDTSTART:20260714\nend:vevent").data = [] :=
  ⟨rfl, rfl, rfl, rfl⟩

/-- C9: a record is appended only at an `END:VEVENT` line, so a block whose
closing delimiter never appears contributes nothing: decoding a line list
extended by a trailing fragment containing no `END:VEVENT` line returns
exactly the records of the leading, completely delimited part. -/
theorem C9_unclosed_block_contributes_nothing :
    (∀ (s : ParseState) (l : List Char), jsTrim l ≠ ("END:VEVENT").data →
        (step s l).events = s.events)
    ∧ ∀ (ls tail : List (List Char)),
        (∀ l ∈ tail, jsTrim l ≠ ("END:VEVENT").data) →
        parseICSLines (ls ++ tail) = parseICSLines ls := by
  refine ⟨step_events_of_ne_end, fun ls tail h => ?_⟩
  unfold parseICSLines
  rw [List.foldl_append]
  exact foldl_events_of_no_end tail _ h

/-- C9 witness: a document truncated in the middle of its second block
yields exactly the single record of its first, closed block. -/
theorem C9_witness :
    parseICSLines
        ([("BEGIN:VEVENT").data, ("DTSTART:20260101").data, ("END:VEVENT").data]
          ++ [("BEGIN:VEVENT").data, ("DTSTART:20260714").data, ("SUMMARY:tronqué").data])
      = parseICSLines
          [("BEGIN:VEVENT").data, ("DTSTART:20260101").data, ("END:VEVENT").data] :=
  C9_unclosed_block_contributes_nothing.2 _ _ (by decide)

/-- C8: tolerant decode.  The embedding is total, so decoding never fails;
moreover the empty string decodes to the empty list, an input none of whose
lines is a `BEGIN:VEVENT` delimiter (no VEVENT block) decodes to the empty
list, a line that is neither a delimiter nor a recognized property is
ignored without effect wherever it is interleaved, and a DTSTART or DTEND
value that is neither an 8-character date nor a 15-plus-character datetime
containing `T` parses to the empty (absent) boundary rather than an
error. -/
theorem C8_tolerant_decode :
    parseICS [] = []
    ∧ (∀ input : List Char,
        (∀ l ∈ splitLines (unfold input), jsTrim l ≠ ("BEGIN:VEVENT").data) →
        parseICS input = [])
    ∧ (∀ (ls1 ls2 : List (List Char)) (l : List Char), junkLine l = true →
        parseICSLines (ls1 ++ l :: ls2) = parseICSLines (ls1 ++ ls2))
    ∧ ∀ v : List Char, (stripZ v).length ≠ 8 →
        ¬ (15 ≤ (stripZ v).length ∧ 'T' ∈ stripZ v) →
        parseDTValue v = ⟨[], none⟩ := by
  refine ⟨rfl, fun input h => ?_, fun ls1 ls2 l h => ?_, fun v h8 h15 => ?_⟩
  · unfold parseICS parseICSLines
    have key : ∀ (lines : List (List Char)),
        (∀ l ∈ lines, jsTrim l ≠ ("BEGIN:VEVENT").data) →
        lines.foldl step ⟨[], false, ⟨[], [], [], []⟩⟩ = ⟨[], false, ⟨[], [], [], []⟩⟩ := by
      intro lines
      induction lines with
      | nil => intro _; rfl
      | cons l rest ih =>
        intro hl
        rw [List.foldl_cons]
        have hstep : step ⟨[], false, ⟨[], [], [], []⟩⟩ l = ⟨[], false, ⟨[], [], [], []⟩⟩ := by
          unfold step
          rw [if_neg (hl l (List.mem_cons_self l rest))]
          by_cases he : jsTrim l = ("END:VEVENT").data
          · rw [if_pos he]
            rfl
          · rw [if_neg he]
            rfl
        rw [hstep]
        exact ih (fun x hx => hl x (List.mem_cons_of_mem l hx))
    rw [key _ h]
  · unfold parseICSLines
    rw [List.foldl_append, List.foldl_append, List.foldl_cons, step_of_junkLine _ l h]
  · simp only [parseDTValue]
    by_cases hv : v = []
    · rw [if_pos hv]
    · rw [if_neg hv, if_neg h8, if_neg h15]

/-- C8 witness: a delimiter-free document decodes to the empty list, an
unknown `X-FOO` property interleaved inside a block changes nothing, and a
malformed boundary value parses to the absent boundary. -/
theorem C8_witness :
    parseICS ("VERSION:2.0\nPRODID:quelconque\ntexte libre").data = []
    ∧ parseICSLines
        ([("BEGIN:VEVENT").data, ("DTSTART:20260714").data]
          ++ ("X-FOO;X-PARAM=1:bar").data :: [("END:VEVENT").data])
      = parseICSLines ([("BEGIN:VEVENT").data, ("DTSTART:20260714").data]
          ++ [("END:VEVENT").data])
    ∧ parseDTValue ("banane").data = ⟨[], none⟩ :=
  ⟨C8_tolerant_decode.2.1 _ (by decide),
   C8_tolerant_decode.2.2.1 _ _ _ (by decide),
   C8_tolerant_decode.2.2.2 _ (by decide) (by decide)⟩

/-- C7 counterexample: the decoder pushes a record whenever the raw DTSTART
string is non-empty, even when it is unparseable, so a record with an empty
`startDate` field is returned, refuting the claim that every returned
record has a non-empty `startDate`. -/
theorem C7_counterexample :
    (parseICS ("BEGIN:VEVENT\nDTSTART:oops\nEND:VEVENT").data).map
      (fun e => e.startDate) = [[]] := rfl

/-- C7 (amended): every record returned by the decoder is the finalization
of a property bag whose raw DTSTART value is non-empty (its parsed
`startDate` may still be the empty string when that raw value is
malformed), and finalizing any bag with no DTEND value yields a record
whose `endDate` equals its `startDate`. -/
theorem C7_amended_start_present_end_defaults :
    (∀ (input : List Char) (e : ImportedEvent), e ∈ parseICS input →
        ∃ bag : PropBag, bag.dtstart ≠ [] ∧ e = finalizeBag bag)
    ∧ ∀ bag : PropBag, bag.dtend = [] →
        (finalizeBag bag).endDate = (finalizeBag bag).startDate := by
  constructor
  · intro input e h
    rcases mem_foldl_step_events _ _ e h with h1 | h1
    · exact absurd h1 (List.not_mem_nil e)
    · exact h1
  · intro bag hd
    unfold finalizeBag
    rw [hd]
    simp only [ne_eq, not_true_eq_false, if_false, and_false, false_and, if_neg
      (fun hc : (parseDTValue bag.dtstart).time = none ∧
          (parseDTValue bag.dtstart).date ≠ [] ∧
          (parseDTValue bag.dtstart).date ≠ (parseDTValue bag.dtstart).date =>
        hc.2.2 rfl)]
    by_cases hsd : (parseDTValue bag.dtstart).date = []
    · simp [hsd]
    · simp [hsd]

/-- C7 witness: a well-formed block yields the finalization of a bag with
non-empty DTSTART, and a bag with DTSTART only finalizes with
`endDate = startDate`. -/
theorem C7_witness :
    (∃ bag : PropBag, bag.dtstart ≠ [] ∧
        (⟨("Événement importé").data, ("2026-07-14").data, ("2026-07-14").data,
          ("2026-07-14").data, [], [], []⟩ : ImportedEvent) = finalizeBag bag)
    ∧ (finalizeBag ⟨("20260101").data, [], [], []⟩).endDate
        = (finalizeBag ⟨("20260101").data, [], [], []⟩).startDate :=
  ⟨C7_amended_start_present_end_defaults.1
      ("BEGIN:VEVENT\nDTSTART:20260714\nEND:VEVENT").data _ (by decide),
   C7_amended_start_present_end_defaults.2 _ rfl⟩


/-- C3 counterexample: for the text `;,\` newline `\n` — which contains a
semicolon, a comma, backslashes and an embedded newline — decoding the
encoder's escaping does not return the original text: the decoder's first
pass turns the escaped form of a backslash followed by the letter `n` into
a newline. -/
theorem C3_counterexample :
    unescapeText (escapeText ([';', ',', '\\', '\n', '\\', 'n']))
      ≠ [';', ',', '\\', '\n', '\\', 'n'] := by decide

/-- C3 (amended): for every text in which no backslash is immediately
followed by the letter `n` or `N`, applying the decoder's unescaping to the
encoder's escaping returns the original text; semicolons, commas,
backslashes and embedded newlines all round-trip under that proviso. -/
theorem C3_amended_unescape_escape (text : List Char) (h : noBN text = true) :
    unescapeText (escapeText text) = text :=
  unescape_escape_of_noBN text h

/-- C3 witness: a text containing a semicolon, a comma, a backslash and an
embedded newline, with no backslash directly before an `n`, round-trips. -/
theorem C3_witness :
    noBN ("a;b,c\\d\ne").data = true
    ∧ unescapeText (escapeText ("a;b,c\\d\ne").data) = ("a;b,c\\d\ne").data :=
  ⟨by decide, C3_amended_unescape_escape _ (by decide)⟩

/-- C4: for a timed record with a well-formed `HH:MM` startTime and no
endTime, the encoder emits a DTEND combining the record's startDate with
the start time plus one hour: the hour field holds `h + 1` rendered through
`String (h + 1).padStart (2, '0')` — for `23:xx` this yields `24:xx`,
staying inside the time field — and the date component of the boundary is
literally startDate, never the next calendar date. -/
theorem C4_default_duration_one_hour (today : Ymd) (ev : EventRec) (h m : Nat)
    (hh : h ≤ 23) (hm : m ≤ 59)
    (hst : ev.startTime = timeHM h m) (het : ev.endTime = [])
    (hsd : ev.startDate ≠ []) :
    (eventToVEvent today ev).get? 4 =
      some (("DTEND:").data ++ toICSDateTime ev.startDate (timeHM (h + 1) m)) := by
  unfold eventToVEvent
  dsimp only
  rw [hst, het, if_pos hsd, if_pos (timeHM_ne_nil h m),
      if_neg (fun hc : ([] : List Char) ≠ [] => hc rfl),
      defaultEndTime_timeHM h m (by omega) (by omega)]
  simp only [List.cons_append, List.nil_append]
  rfl

/-- C4 witness: startTime 14:00 yields DTEND 15:00 on the same date, and
startTime 23:30 yields DTEND 24:30 with an unchanged date component. -/
theorem C4_witness :
    (eventToVEvent ⟨2026, 1, 2⟩
        ⟨("e1").data, ("Réunion").data, ("2026-07-14").data, [], ("2026-07-14").data,
         ("14:00").data, [], []⟩).get? 4 = some (("DTEND:20260714T150000").data)
    ∧ (eventToVEvent ⟨2026, 1, 2⟩
        ⟨("e2").data, ("Tard").data, ("2026-07-14").data, [], ("2026-07-14").data,
         ("23:30").data, [], []⟩).get? 4 = some (("DTEND:20260714T243000").data) := by
  constructor
  · rw [C4_default_duration_one_hour ⟨2026, 1, 2⟩ _ 14 0 (by omega) (by omega)
        (by decide) rfl (by decide)]
    rfl
  · rw [C4_default_duration_one_hour ⟨2026, 1, 2⟩ _ 23 30 (by omega) (by omega)
        (by decide) rfl (by decide)]
    rfl

/-- C5: for an all-day record (startTime absent) whose endDate is a valid
calendar date, the raw encoded `DTEND;VALUE=DATE` value is the rendering of
the calendar day immediately after endDate (`dateSucc`, the embedded
JavaScript `setDate (getDate () + 1)`), which rolls over month and year
boundaries. -/
theorem C5_exclusive_end_day_after (today : Ymd) (ev : EventRec) (ed : Ymd)
    (hv : validYmd ed) (hall : ev.startTime = []) (hed : ev.endDate = fmtISO ed) :
    (eventToVEvent today ev).get? 4 =
      some (("DTEND;VALUE=DATE:").data ++ fmtICS (dateSucc ed)) := by
  unfold eventToVEvent
  dsimp only
  rw [hall, hed, if_neg (fun hc : ([] : List Char) ≠ [] => hc rfl),
      if_pos (fmtISO_ne_nil ed), nextDayICS_fmtISO ed hv]
  simp only [List.cons_append, List.nil_append]
  rfl

/-- C5 witness: endDate 2026-12-31 encodes with the raw end boundary
20270101, rolling over both month and year. -/
theorem C5_witness :
    (eventToVEvent ⟨2026, 1, 2⟩
        ⟨("e3").data, ("Fin d'année").data, ("2026-12-30").data, [], ("2026-12-31").data,
         [], [], []⟩).get? 4 = some (("DTEND;VALUE=DATE:20270101").data) := by
  rw [C5_exclusive_end_day_after ⟨2026, 1, 2⟩ _ ⟨2026, 12, 31⟩ (by decide) rfl (by decide)]
  rfl

/-- C6: the encoder folds every logical line of the document (`eventsToICS`
maps `foldLine` over all lines before joining with CRLF); a logical line
longer than 75 octets is split by `foldLine` into its first 75 octets
followed by continuation parts each consisting of exactly one space
prepended to the next 74-octet chunk — so the folded text parses back into
at least two physical lines, every continuation beginning with the single
added space — and the decoder's unfolding reconstructs the original
logical line exactly: `unfold (foldLine line) = line`. -/
theorem C6_fold_and_unfold_inverse (line : List Char) (hnl : '\n' ∉ line) :
    unfold (foldLine line) = line
    ∧ (∀ (today : Ymd) (evs : List EventRec),
        eventsToICS today evs = joinCRLF ((docLines today evs).map foldLine) ++ ['\r', '\n'])
    ∧ (75 < line.length →
        splitLines (foldLine line) = line.take 75 :: foldParts (line.drop 75)
        ∧ (∀ p ∈ foldParts (line.drop 75), ∃ q, p = ' ' :: q)
        ∧ 2 ≤ (splitLines (foldLine line)).length) := by
  refine ⟨unfold_foldLine line hnl, fun _ _ => rfl, fun hlen => ?_⟩
  have hsplit := splitLines_foldLine line hnl hlen
  refine ⟨hsplit, foldParts_space_head (line.drop 75).length (line.drop 75) le_rfl, ?_⟩
  rw [hsplit]
  have hdne : line.drop 75 ≠ [] := by
    intro hh
    have := congrArg List.length hh
    simp at this
    omega
  cases hfp : foldParts (line.drop 75) with
  | nil => exact absurd hfp (foldParts_ne_nil _ hdne)
  | cons q qs => simp

/-- C6 witness: an 80-character line folds into two physical lines, the
continuation starting with one space, and unfolds back to itself. -/
theorem C6_witness :
    unfold (foldLine (List.replicate 80 'x')) = List.replicate 80 'x'
    ∧ splitLines (foldLine (List.replicate 80 'x'))
        = (List.replicate 80 'x').take 75 :: foldParts ((List.replicate 80 'x').drop 75) := by
  have h := C6_fold_and_unfold_inverse (List.replicate 80 'x') (by decide)
  exact ⟨h.1, (h.2.2 (by decide)).1⟩

/-- C1 counterexample: the all-day record 9999-12-30 .. 9999-12-31 lies in
the claim's scope (startTime absent, endDate ≥ startDate), yet the encoder
renders its exclusive day-after boundary as the nine-character `100000101`,
the decoder's value parser accepts only 8-character dates and rejects it,
the one-day decrement is skipped, and the decoded endDate collapses to the
startDate instead of the record's own endDate. -/
theorem C1_counterexample :
    (parseICS (eventsToICS ⟨2026, 1, 2⟩
        [⟨("e0").data, ("Fin").data, ("9999-12-30").data, [],
          ("9999-12-31").data, [], [], []⟩])).map (fun e => (e.startDate, e.endDate))
      = [(("9999-12-30").data, ("9999-12-30").data)]
    ∧ ("9999-12-30").data ≠ ("9999-12-31").data :=
  ⟨by decide, by decide⟩

/-- C1 (amended): for every all-day record (startTime absent) whose
startDate and endDate render valid calendar dates with startDate ≤ endDate
and endDate no later than year 9998 — so that the day after endDate still
renders as an eight-character date — encoding with `eventsToICS` and
decoding with `parseICS` yields exactly one record with the same startDate
and the same inclusive endDate: the encoder's exclusive day-after end
boundary and the decoder's one-day decrement cancel out. -/
theorem C1_all_day_round_trip (today sd ed : Ymd) (ev : EventRec)
    (hvsd : validYmd sd) (hved : validYmd ed) (h9 : ed.year ≤ 9998)
    (hord : dateKey sd ≤ dateKey ed)
    (hsd : ev.startDate = fmtISO sd) (hed : ev.endDate = fmtISO ed)
    (hst : ev.startTime = []) (hid : '\n' ∉ ev.id) :
    (parseICS (eventsToICS today [ev])).map (fun e => (e.startDate, e.endDate))
      = [(fmtISO sd, fmtISO ed)] := by
  have hvsucc := validYmd_dateSucc ed hved h9
  have hsdne : ev.startDate ≠ [] := by rw [hsd]; exact fmtISO_ne_nil sd
  have hedne : ev.endDate ≠ [] := by rw [hed]; exact fmtISO_ne_nil ed
  by_cases hde : ev.description = []
  · have hdl : docLines today [ev] =
        ("BEGIN:VCALENDAR").data :: ("VERSION:2.0").data
          :: ("PRODID:-//Calendrier//FR").data :: ("CALSCALE:GREGORIAN").data
          :: ("METHOD:PUBLISH").data :: ("BEGIN:VEVENT").data
          :: (("UID:").data ++ makeUID ev)
          :: (("DTSTAMP:").data ++ (toICSDate (fmtISO today) ++ ("T000000Z").data))
          :: (("DTSTART;VALUE=DATE:").data ++ fmtICS sd)
          :: (("DTEND;VALUE=DATE:").data ++ fmtICS (dateSucc ed))
          :: (("SUMMARY:").data ++ escapeText ev.title)
          :: ("END:VEVENT").data :: ("END:VCALENDAR").data :: [] := by
      unfold docLines
      rw [show List.map (eventToVEvent today) [ev] = [eventToVEvent today ev] from rfl,
          show concatAll [eventToVEvent today ev] = eventToVEvent today ev ++ [] from rfl,
          eventToVEvent_allday today ev hsdne hedne hst,
          if_neg (fun hc : ev.description ≠ [] => hc hde),
          hsd, hed, toICSDate_fmtISO sd hvsd, nextDayICS_fmtISO ed hved]
      simp
    have hLok : ∀ l ∈ docLines today [ev],
        l ≠ [] ∧ '\n' ∉ l ∧ ∀ c, l.head? = some c → c ≠ ' ' ∧ c ≠ '\t' := by
      intro l hl
      rw [hdl] at hl
      simp only [List.mem_cons, List.not_mem_nil, or_false] at hl
      rcases hl with rfl | rfl | rfl | rfl | rfl | rfl | rfl | rfl | rfl | rfl | rfl | rfl | rfl
      · exact docLineOK2 'B' _ (by decide) (by decide)
      · exact docLineOK2 'V' _ (by decide) (by decide)
      · exact docLineOK2 'P' _ (by decide) (by decide)
      · exact docLineOK2 'C' _ (by decide) (by decide)
      · exact docLineOK2 'M' _ (by decide) (by decide)
      · exact docLineOK2 'B' _ (by decide) (by decide)
      · exact docLineOK 'U' (("ID:").data) (makeUID ev) (by decide) (by decide)
          (by intro h
              have h2 : '\n' ∈ ev.id ++ ("@calendrier").data := h
              rcases List.mem_append.mp h2 with h1 | h1
              · exact hid h1
              · exact absurd h1 (by decide))
      · exact docLineOK 'D' (("TSTAMP:").data) _ (by decide) (by decide)
          (by intro h
              rcases List.mem_append.mp h with h1 | h1
              · exact fmtISO_no_newline today (mem_toICSDate _ _ h1)
              · exact absurd h1 (by decide))
      · exact docLineOK 'D' (("TSTART;VALUE=DATE:").data) _ (by decide) (by decide)
          (fmtICS_no_newline sd hvsd)
      · exact docLineOK 'D' (("TEND;VALUE=DATE:").data) _ (by decide) (by decide)
          (fmtICS_no_newline (dateSucc ed) hvsucc)
      · exact docLineOK 'S' (("UMMARY:").data) _ (by decide) (by decide)
          (escapeText_no_newline ev.title)
      · exact docLineOK2 'E' _ (by decide) (by decide)
      · exact docLineOK2 'E' _ (by decide) (by decide)
    have hdl2 : docLines today [ev] ++ [[]] =
        ("BEGIN:VCALENDAR").data :: ("VERSION:2.0").data
          :: ("PRODID:-//Calendrier//FR").data :: ("CALSCALE:GREGORIAN").data
          :: ("METHOD:PUBLISH").data :: ("BEGIN:VEVENT").data
          :: (("UID:").data ++ makeUID ev)
          :: (("DTSTAMP:").data ++ (toICSDate (fmtISO today) ++ ("T000000Z").data))
          :: (("DTSTART;VALUE=DATE:").data ++ fmtICS sd)
          :: (("DTEND;VALUE=DATE:").data ++ fmtICS (dateSucc ed))
          :: (("SUMMARY:").data ++ escapeText ev.title)
          :: ("END:VEVENT").data :: ("END:VCALENDAR").data :: [] :: [] := by
      rw [hdl]
      rfl
    rw [parse_transport today [ev] hLok, hdl2]
    unfold parseICSLines
    rw [List.foldl_cons,
        show step ⟨[], false, ⟨[], [], [], []⟩⟩ (("BEGIN:VCALENDAR").data)
          = ⟨[], false, ⟨[], [], [], []⟩⟩ from rfl,
        List.foldl_cons,
        show step ⟨[], false, ⟨[], [], [], []⟩⟩ (("VERSION:2.0").data)
          = ⟨[], false, ⟨[], [], [], []⟩⟩ from rfl,
        List.foldl_cons,
        show step ⟨[], false, ⟨[], [], [], []⟩⟩ (("PRODID:-//Calendrier//FR").data)
          = ⟨[], false, ⟨[], [], [], []⟩⟩ from rfl,
        List.foldl_cons,
        show step ⟨[], false, ⟨[], [], [], []⟩⟩ (("CALSCALE:GREGORIAN").data)
          = ⟨[], false, ⟨[], [], [], []⟩⟩ from rfl,
        List.foldl_cons,
        show step ⟨[], false, ⟨[], [], [], []⟩⟩ (("METHOD:PUBLISH").data)
          = ⟨[], false, ⟨[], [], [], []⟩⟩ from rfl,
        List.foldl_cons,
        show step ⟨[], false, ⟨[], [], [], []⟩⟩ (("BEGIN:VEVENT").data)
          = ⟨[], true, ⟨[], [], [], []⟩⟩ from rfl,
        List.foldl_cons, step_UID,
        List.foldl_cons, step_DTSTAMP,
        List.foldl_cons, step_DTSTART_VDATE,
        List.foldl_cons, step_DTEND_VDATE,
        List.foldl_cons, step_SUMMARY,
        List.foldl_cons, step_END_VEVENT,
        List.foldl_cons, step_END_VCALENDAR,
        List.foldl_cons, step_nil_line,
        List.foldl_nil]
    dsimp only
    rw [jsTrimRight_fmtICS sd hvsd, jsTrimRight_fmtICS (dateSucc ed) hvsucc,
        if_pos (fmtICS_ne_nil sd), List.nil_append,
        finalizeBag_allday sd ed _ _ hvsd hved h9 hord]
    all_goals rfl
  · have hdl : docLines today [ev] =
        ("BEGIN:VCALENDAR").data :: ("VERSION:2.0").data
          :: ("PRODID:-//Calendrier//FR").data :: ("CALSCALE:GREGORIAN").data
          :: ("METHOD:PUBLISH").data :: ("BEGIN:VEVENT").data
          :: (("UID:").data ++ makeUID ev)
          :: (("DTSTAMP:").data ++ (toICSDate (fmtISO today) ++ ("T000000Z").data))
          :: (("DTSTART;VALUE=DATE:").data ++ fmtICS sd)
          :: (("DTEND;VALUE=DATE:").data ++ fmtICS (dateSucc ed))
          :: (("SUMMARY:").data ++ escapeText ev.title)
          :: (("DESCRIPTION:").data ++ escapeText ev.description)
          :: ("END:VEVENT").data :: ("END:VCALENDAR").data :: [] := by
      unfold docLines
      rw [show List.map (eventToVEvent today) [ev] = [eventToVEvent today ev] from rfl,
          show concatAll [eventToVEvent today ev] = eventToVEvent today ev ++ [] from rfl,
          eventToVEvent_allday today ev hsdne hedne hst, if_pos hde,
          hsd, hed, toICSDate_fmtISO sd hvsd, nextDayICS_fmtISO ed hved]
      simp
    have hLok : ∀ l ∈ docLines today [ev],
        l ≠ [] ∧ '\n' ∉ l ∧ ∀ c, l.head? = some c → c ≠ ' ' ∧ c ≠ '\t' := by
      intro l hl
      rw [hdl] at hl
      simp only [List.mem_cons, List.not_mem_nil, or_false] at hl
      rcases hl with
        rfl | rfl | rfl | rfl | rfl | rfl | rfl | rfl | rfl | rfl | rfl | rfl | rfl | rfl
      · exact docLineOK2 'B' _ (by decide) (by decide)
      · exact docLineOK2 'V' _ (by decide) (by decide)
      · exact docLineOK2 'P' _ (by decide) (by decide)
      · exact docLineOK2 'C' _ (by decide) (by decide)
      · exact docLineOK2 'M' _ (by decide) (by decide)
      · exact docLineOK2 'B' _ (by decide) (by decide)
      · exact docLineOK 'U' (("ID:").data) (makeUID ev) (by decide) (by decide)
          (by intro h
              have h2 : '\n' ∈ ev.id ++ ("@calendrier").data := h
              rcases List.mem_append.mp h2 with h1 | h1
              · exact hid h1
              · exact absurd h1 (by decide))
      · exact docLineOK 'D' (("TSTAMP:").data) _ (by decide) (by decide)
          (by intro h
              rcases List.mem_append.mp h with h1 | h1
              · exact fmtISO_no_newline today (mem_toICSDate _ _ h1)
              · exact absurd h1 (by decide))
      · exact docLineOK 'D' (("TSTART;VALUE=DATE:").data) _ (by decide) (by decide)
          (fmtICS_no_newline sd hvsd)
      · exact docLineOK 'D' (("TEND;VALUE=DATE:").data) _ (by decide) (by decide)
          (fmtICS_no_newline (dateSucc ed) hvsucc)
      · exact docLineOK 'S' (("UMMARY:").data) _ (by decide) (by decide)
          (escapeText_no_newline ev.title)
      · exact docLineOK 'D' (("ESCRIPTION:").data) _ (by decide) (by decide)
          (escapeText_no_newline ev.description)
      · exact docLineOK2 'E' _ (by decide) (by decide)
      · exact docLineOK2 'E' _ (by decide) (by decide)
    have hdl2 : docLines today [ev] ++ [[]] =
        ("BEGIN:VCALENDAR").data :: ("VERSION:2.0").data
          :: ("PRODID:-//Calendrier//FR").data :: ("CALSCALE:GREGORIAN").data
          :: ("METHOD:PUBLISH").data :: ("BEGIN:VEVENT").data
          :: (("UID:").data ++ makeUID ev)
          :: (("DTSTAMP:").data ++ (toICSDate (fmtISO today) ++ ("T000000Z").data))
          :: (("DTSTART;VALUE=DATE:").data ++ fmtICS sd)
          :: (("DTEND;VALUE=DATE:").data ++ fmtICS (dateSucc ed))
          :: (("SUMMARY:").data ++ escapeText ev.title)
          :: (("DESCRIPTION:").data ++ escapeText ev.description)
          :: ("END:VEVENT").data :: ("END:VCALENDAR").data :: [] :: [] := by
      rw [hdl]
      rfl
    rw [parse_transport today [ev] hLok, hdl2]
    unfold parseICSLines
    rw [List.foldl_cons,
        show step ⟨[], false, ⟨[], [], [], []⟩⟩ (("BEGIN:VCALENDAR").data)
          = ⟨[], false, ⟨[], [], [], []⟩⟩ from rfl,
        List.foldl_cons,
        show step ⟨[], false, ⟨[], [], [], []⟩⟩ (("VERSION:2.0").data)
          = ⟨[], false, ⟨[], [], [], []⟩⟩ from rfl,
        List.foldl_cons,
        show step ⟨[], false, ⟨[], [], [], []⟩⟩ (("PRODID:-//Calendrier//FR").data)
          = ⟨[], false, ⟨[], [], [], []⟩⟩ from rfl,
        List.foldl_cons,
        show step ⟨[], false, ⟨[], [], [], []⟩⟩ (("CALSCALE:GREGORIAN").data)
          = ⟨[], false, ⟨[], [], [], []⟩⟩ from rfl,
        List.foldl_cons,
        show step ⟨[], false, ⟨[], [], [], []⟩⟩ (("METHOD:PUBLISH").data)
          = ⟨[], false, ⟨[], [], [], []⟩⟩ from rfl,
        List.foldl_cons,
        show step ⟨[], false, ⟨[], [], [], []⟩⟩ (("BEGIN:VEVENT").data)
          = ⟨[], true, ⟨[], [], [], []⟩⟩ from rfl,
        List.foldl_cons, step_UID,
        List.foldl_cons, step_DTSTAMP,
        List.foldl_cons, step_DTSTART_VDATE,
        List.foldl_cons, step_DTEND_VDATE,
        List.foldl_cons, step_SUMMARY,
        List.foldl_cons, step_DESCRIPTION,
        List.foldl_cons, step_END_VEVENT,
        List.foldl_cons, step_END_VCALENDAR,
        List.foldl_cons, step_nil_line,
        List.foldl_nil]
    dsimp only
    rw [jsTrimRight_fmtICS sd hvsd, jsTrimRight_fmtICS (dateSucc ed) hvsucc,
        if_pos (fmtICS_ne_nil sd), List.nil_append,
        finalizeBag_allday sd ed _ _ hvsd hved h9 hord]
    all_goals rfl

/-- C1 witness: the all-day record 2026-07-01 .. 2026-07-05 round-trips
through encoding and decoding with both dates intact. -/
theorem C1_witness :
    (parseICS (eventsToICS ⟨2026, 1, 2⟩
        [⟨("ev1").data, ("Vacances").data, ("2026-07-01").data, [],
          ("2026-07-05").data, [], [], []⟩])).map (fun e => (e.startDate, e.endDate))
      = [(("2026-07-01").data, ("2026-07-05").data)] := by
  rw [C1_all_day_round_trip ⟨2026, 1, 2⟩ ⟨2026, 7, 1⟩ ⟨2026, 7, 5⟩ _
      (by decide) (by decide) (by decide) (by decide) rfl rfl rfl (by decide)]
  rfl

/-- C2 counterexample: a timed single-day record with an absent endTime is
decoded with endTime 15:00 (the encoder's one-hour default), not the
record's own empty endTime, refuting the claim for every timed single-day
record. -/
theorem C2_counterexample :
    (parseICS (eventToICS ⟨2026, 1, 2⟩
        ⟨("e9").data, ("Réunion").data, ("2026-07-14").data, [],
         ("2026-07-14").data, ("14:00").data, [], []⟩)).map (fun e => e.endTime)
      = [("15:00").data]
    ∧ ("15:00").data ≠ ([] : List Char) := by
  exact ⟨by decide, by decide⟩

/-- C2 (amended): a timed single-day record whose endTime is present
round-trips exactly — provided its title is non-empty, no backslash in the
title or description directly precedes the letter `n` or `N`, and the
escaped title and description carry no trailing JavaScript whitespace (the
decoder trims every physical line) — yielding one record with the same
startDate, endDate, startTime, endTime, title and description. -/
theorem C2_timed_single_day_round_trip (today sd : Ymd) (ev : EventRec)
    (hA mA hB mB : Nat)
    (hvsd : validYmd sd) (hhA : hA ≤ 99) (hmA : mA ≤ 99) (hhB : hB ≤ 99) (hmB : mB ≤ 99)
    (hsd : ev.startDate = fmtISO sd) (hed : ev.endDate = fmtISO sd)
    (hst : ev.startTime = timeHM hA mA) (het : ev.endTime = timeHM hB mB)
    (hid : '\n' ∉ ev.id)
    (htne : ev.title ≠ []) (htb : noBN ev.title = true)
    (htt : jsTrimRight (escapeText ev.title) = escapeText ev.title)
    (hdb : noBN ev.description = true)
    (hdt : jsTrimRight (escapeText ev.description) = escapeText ev.description) :
    parseICS (eventToICS today ev)
      = [⟨ev.title, fmtISO sd, fmtISO sd, fmtISO sd, timeHM hA mA, timeHM hB mB,
          ev.description⟩] := by
  have hsdne : ev.startDate ≠ [] := by rw [hsd]; exact fmtISO_ne_nil sd
  have hedne : ev.endDate ≠ [] := by rw [hed]; exact fmtISO_ne_nil sd
  have hstne : ev.startTime ≠ [] := by rw [hst]; exact timeHM_ne_nil hA mA
  have hetne : ev.endTime ≠ [] := by rw [het]; exact timeHM_ne_nil hB mB
  rw [show eventToICS today ev = eventsToICS today [ev] from rfl]
  by_cases hde : ev.description = []
  · have hdl : docLines today [ev] =
        ("BEGIN:VCALENDAR").data :: ("VERSION:2.0").data
          :: ("PRODID:-//Calendrier//FR").data :: ("CALSCALE:GREGORIAN").data
          :: ("METHOD:PUBLISH").data :: ("BEGIN:VEVENT").data
          :: (("UID:").data ++ makeUID ev)
          :: (("DTSTAMP:").data ++ (toICSDate (fmtISO today) ++ ("T000000Z").data))
          :: (("DTSTART:").data ++ (fmtICS sd ++ 'T' :: (pad2 hA ++ pad2 mA ++ ['0', '0'])))
          :: (("DTEND:").data ++ (fmtICS sd ++ 'T' :: (pad2 hB ++ pad2 mB ++ ['0', '0'])))
          :: (("SUMMARY:").data ++ escapeText ev.title)
          :: ("END:VEVENT").data :: ("END:VCALENDAR").data :: [] := by
      unfold docLines
      rw [show List.map (eventToVEvent today) [ev] = [eventToVEvent today ev] from rfl,
          show concatAll [eventToVEvent today ev] = eventToVEvent today ev ++ [] from rfl,
          eventToVEvent_timed today ev hsdne hedne hstne hetne,
          if_neg (fun hc : ev.description ≠ [] => hc hde),
          hsd, hed, hst, het, toICSDateTime_fmt sd hvsd hA mA hhA hmA,
          toICSDateTime_fmt sd hvsd hB mB hhB hmB]
      simp
    have hLok : ∀ l ∈ docLines today [ev],
        l ≠ [] ∧ '\n' ∉ l ∧ ∀ c, l.head? = some c → c ≠ ' ' ∧ c ≠ '\t' := by
      intro l hl
      rw [hdl] at hl
      simp only [List.mem_cons, List.not_mem_nil, or_false] at hl
      rcases hl with rfl | rfl | rfl | rfl | rfl | rfl | rfl | rfl | rfl | rfl | rfl | rfl | rfl
      · exact docLineOK2 'B' _ (by decide) (by decide)
      · exact docLineOK2 'V' _ (by decide) (by decide)
      · exact docLineOK2 'P' _ (by decide) (by decide)
      · exact docLineOK2 'C' _ (by decide) (by decide)
      · exact docLineOK2 'M' _ (by decide) (by decide)
      · exact docLineOK2 'B' _ (by decide) (by decide)
      · exact docLineOK 'U' (("ID:").data) (makeUID ev) (by decide) (by decide)
          (by intro h
              have h2 : '\n' ∈ ev.id ++ ("@calendrier").data := h
              rcases List.mem_append.mp h2 with h1 | h1
              · exact hid h1
              · exact absurd h1 (by decide))
      · exact docLineOK 'D' (("TSTAMP:").data) _ (by decide) (by decide)
          (by intro h
              rcases List.mem_append.mp h with h1 | h1
              · exact fmtISO_no_newline today (mem_toICSDate _ _ h1)
              · exact absurd h1 (by decide))
      · exact docLineOK 'D' (("TSTART:").data) _ (by decide) (by decide)
          (dtvalue_no_newline sd hvsd hA mA hhA hmA)
      · exact docLineOK 'D' (("TEND:").data) _ (by decide) (by decide)
          (dtvalue_no_newline sd hvsd hB mB hhB hmB)
      · exact docLineOK 'S' (("UMMARY:").data) _ (by decide) (by decide)
          (escapeText_no_newline ev.title)
      · exact docLineOK2 'E' _ (by decide) (by decide)
      · exact docLineOK2 'E' _ (by decide) (by decide)
    have hdl2 : docLines today [ev] ++ [[]] =
        ("BEGIN:VCALENDAR").data :: ("VERSION:2.0").data
          :: ("PRODID:-//Calendrier//FR").data :: ("CALSCALE:GREGORIAN").data
          :: ("METHOD:PUBLISH").data :: ("BEGIN:VEVENT").data
          :: (("UID:").data ++ makeUID ev)
          :: (("DTSTAMP:").data ++ (toICSDate (fmtISO today) ++ ("T000000Z").data))
          :: (("DTSTART:").data ++ (fmtICS sd ++ 'T' :: (pad2 hA ++ pad2 mA ++ ['0', '0'])))
          :: (("DTEND:").data ++ (fmtICS sd ++ 'T' :: (pad2 hB ++ pad2 mB ++ ['0', '0'])))
          :: (("SUMMARY:").data ++ escapeText ev.title)
          :: ("END:VEVENT").data :: ("END:VCALENDAR").data :: [] :: [] := by
      rw [hdl]
      rfl
    rw [parse_transport today [ev] hLok, hdl2]
    unfold parseICSLines
    rw [List.foldl_cons,
        show step ⟨[], false, ⟨[], [], [], []⟩⟩ (("BEGIN:VCALENDAR").data)
          = ⟨[], false, ⟨[], [], [], []⟩⟩ from rfl,
        List.foldl_cons,
        show step ⟨[], false, ⟨[], [], [], []⟩⟩ (("VERSION:2.0").data)
          = ⟨[], false, ⟨[], [], [], []⟩⟩ from rfl,
        List.foldl_cons,
        show step ⟨[], false, ⟨[], [], [], []⟩⟩ (("PRODID:-//Calendrier//FR").data)
          = ⟨[], false, ⟨[], [], [], []⟩⟩ from rfl,
        List.foldl_cons,
        show step ⟨[], false, ⟨[], [], [], []⟩⟩ (("CALSCALE:GREGORIAN").data)
          = ⟨[], false, ⟨[], [], [], []⟩⟩ from rfl,
        List.foldl_cons,
        show step ⟨[], false, ⟨[], [], [], []⟩⟩ (("METHOD:PUBLISH").data)
          = ⟨[], false, ⟨[], [], [], []⟩⟩ from rfl,
        List.foldl_cons,
        show step ⟨[], false, ⟨[], [], [], []⟩⟩ (("BEGIN:VEVENT").data)
          = ⟨[], true, ⟨[], [], [], []⟩⟩ from rfl,
        List.foldl_cons, step_UID,
        List.foldl_cons, step_DTSTAMP,
        List.foldl_cons, step_DTSTART_plain,
        List.foldl_cons, step_DTEND_plain,
        List.foldl_cons, step_SUMMARY,
        List.foldl_cons, step_END_VEVENT,
        List.foldl_cons, step_END_VCALENDAR,
        List.foldl_cons, step_nil_line,
        List.foldl_nil]
    dsimp only
    rw [jsTrimRight_dtvalue sd hvsd hA mA hhA hmA,
        jsTrimRight_dtvalue sd hvsd hB mB hhB hmB,
        htt, unescape_escape_of_noBN ev.title htb]
    have hne1 : fmtICS sd ++ 'T' :: (pad2 hA ++ pad2 mA ++ ['0', '0']) ≠ [] := by simp
    rw [if_pos hne1, List.nil_append,
        finalizeBag_timed sd hA mA hB mB _ _ hvsd, if_pos htne, hde]
    all_goals rfl
  · have hdl : docLines today [ev] =
        ("BEGIN:VCALENDAR").data :: ("VERSION:2.0").data
          :: ("PRODID:-//Calendrier//FR").data :: ("CALSCALE:GREGORIAN").data
          :: ("METHOD:PUBLISH").data :: ("BEGIN:VEVENT").data
          :: (("UID:").data ++ makeUID ev)
          :: (("DTSTAMP:").data ++ (toICSDate (fmtISO today) ++ ("T000000Z").data))
          :: (("DTSTART:").data ++ (fmtICS sd ++ 'T' :: (pad2 hA ++ pad2 mA ++ ['0', '0'])))
          :: (("DTEND:").data ++ (fmtICS sd ++ 'T' :: (pad2 hB ++ pad2 mB ++ ['0', '0'])))
          :: (("SUMMARY:").data ++ escapeText ev.title)
          :: (("DESCRIPTION:").data ++ escapeText ev.description)
          :: ("END:VEVENT").data :: ("END:VCALENDAR").data :: [] := by
      unfold docLines
      rw [show List.map (eventToVEvent today) [ev] = [eventToVEvent today ev] from rfl,
          show concatAll [eventToVEvent today ev] = eventToVEvent today ev ++ [] from rfl,
          eventToVEvent_timed today ev hsdne hedne hstne hetne, if_pos hde,
          hsd, hed, hst, het, toICSDateTime_fmt sd hvsd hA mA hhA hmA,
          toICSDateTime_fmt sd hvsd hB mB hhB hmB]
      simp
    have hLok : ∀ l ∈ docLines today [ev],
        l ≠ [] ∧ '\n' ∉ l ∧ ∀ c, l.head? = some c → c ≠ ' ' ∧ c ≠ '\t' := by
      intro l hl
      rw [hdl] at hl
      simp only [List.mem_cons, List.not_mem_nil, or_false] at hl
      rcases hl with
        rfl | rfl | rfl | rfl | rfl | rfl | rfl | rfl | rfl | rfl | rfl | rfl | rfl | rfl
      · exact docLineOK2 'B' _ (by decide) (by decide)
      · exact docLineOK2 'V' _ (by decide) (by decide)
      · exact docLineOK2 'P' _ (by decide) (by decide)
      · exact docLineOK2 'C' _ (by decide) (by decide)
      · exact docLineOK2 'M' _ (by decide) (by decide)
      · exact docLineOK2 'B' _ (by decide) (by decide)
      · exact docLineOK 'U' (("ID:").data) (makeUID ev) (by decide) (by decide)
          (by intro h
              have h2 : '\n' ∈ ev.id ++ ("@calendrier").data := h
              rcases List.mem_append.mp h2 with h1 | h1
              · exact hid h1
              · exact absurd h1 (by decide))
      · exact docLineOK 'D' (("TSTAMP:").data) _ (by decide) (by decide)
          (by intro h
              rcases List.mem_append.mp h with h1 | h1
              · exact fmtISO_no_newline today (mem_toICSDate _ _ h1)
              · exact absurd h1 (by decide))
      · exact docLineOK 'D' (("TSTART:").data) _ (by decide) (by decide)
          (dtvalue_no_newline sd hvsd hA mA hhA hmA)
      · exact docLineOK 'D' (("TEND:").data) _ (by decide) (by decide)
          (dtvalue_no_newline sd hvsd hB mB hhB hmB)
      · exact docLineOK 'S' (("UMMARY:").data) _ (by decide) (by decide)
          (escapeText_no_newline ev.title)
      · exact docLineOK 'D' (("ESCRIPTION:").data) _ (by decide) (by decide)
          (escapeText_no_newline ev.description)
      · exact docLineOK2 'E' _ (by decide) (by decide)
      · exact docLineOK2 'E' _ (by decide) (by decide)
    have hdl2 : docLines today [ev] ++ [[]] =
        ("BEGIN:VCALENDAR").data :: ("VERSION:2.0").data
          :: ("PRODID:-//Calendrier//FR").data :: ("CALSCALE:GREGORIAN").data
          :: ("METHOD:PUBLISH").data :: ("BEGIN:VEVENT").data
          :: (("UID:").data ++ makeUID ev)
          :: (("DTSTAMP:").data ++ (toICSDate (fmtISO today) ++ ("T000000Z").data))
          :: (("DTSTART:").data ++ (fmtICS sd ++ 'T' :: (pad2 hA ++ pad2 mA ++ ['0', '0'])))
          :: (("DTEND:").data ++ (fmtICS sd ++ 'T' :: (pad2 hB ++ pad2 mB ++ ['0', '0'])))
          :: (("SUMMARY:").data ++ escapeText ev.title)
          :: (("DESCRIPTION:").data ++ escapeText ev.description)
          :: ("END:VEVENT").data :: ("END:VCALENDAR").data :: [] :: [] := by
      rw [hdl]
      rfl
    rw [parse_transport today [ev] hLok, hdl2]
    unfold parseICSLines
    rw [List.foldl_cons,
        show step ⟨[], false, ⟨[], [], [], []⟩⟩ (("BEGIN:VCALENDAR").data)
          = ⟨[], false, ⟨[], [], [], []⟩⟩ from rfl,
        List.foldl_cons,
        show step ⟨[], false, ⟨[], [], [], []⟩⟩ (("VERSION:2.0").data)
          = ⟨[], false, ⟨[], [], [], []⟩⟩ from rfl,
        List.foldl_cons,
        show step ⟨[], false, ⟨[], [], [], []⟩⟩ (("PRODID:-//Calendrier//FR").data)
          = ⟨[], false, ⟨[], [], [], []⟩⟩ from rfl,
        List.foldl_cons,
        show step ⟨[], false, ⟨[], [], [], []⟩⟩ (("CALSCALE:GREGORIAN").data)
          = ⟨[], false, ⟨[], [], [], []⟩⟩ from rfl,
        List.foldl_cons,
        show step ⟨[], false, ⟨[], [], [], []⟩⟩ (("METHOD:PUBLISH").data)
          = ⟨[], false, ⟨[], [], [], []⟩⟩ from rfl,
        List.foldl_cons,
        show step ⟨[], false, ⟨[], [], [], []⟩⟩ (("BEGIN:VEVENT").data)
          = ⟨[], true, ⟨[], [], [], []⟩⟩ from rfl,
        List.foldl_cons, step_UID,
        List.foldl_cons, step_DTSTAMP,
        List.foldl_cons, step_DTSTART_plain,
        List.foldl_cons, step_DTEND_plain,
        List.foldl_cons, step_SUMMARY,
        List.foldl_cons, step_DESCRIPTION,
        List.foldl_cons, step_END_VEVENT,
        List.foldl_cons, step_END_VCALENDAR,
        List.foldl_cons, step_nil_line,
        List.foldl_nil]
    dsimp only
    rw [jsTrimRight_dtvalue sd hvsd hA mA hhA hmA,
        jsTrimRight_dtvalue sd hvsd hB mB hhB hmB,
        htt, unescape_escape_of_noBN ev.title htb,
        hdt, unescape_escape_of_noBN ev.description hdb]
    have hne1 : fmtICS sd ++ 'T' :: (pad2 hA ++ pad2 mA ++ ['0', '0']) ≠ [] := by simp
    rw [if_pos hne1, List.nil_append,
        finalizeBag_timed sd hA mA hB mB _ _ hvsd, if_pos htne]
    all_goals rfl

/-- C2 witness: a timed single-day record with endTime present, an escaped
semicolon in the title and an escaped comma in the description, decodes
back to exactly its own fields. -/
theorem C2_witness :
    parseICS (eventToICS ⟨2026, 1, 2⟩
        ⟨("e7").data, ("Réunion; budget").data, ("2026-07-14").data, [],
         ("2026-07-14").data, ("14:00").data, ("15:30").data,
         ("Salle A, étage 2").data⟩)
      = [⟨("Réunion; budget").data, ("2026-07-14").data, ("2026-07-14").data,
          ("2026-07-14").data, ("14:00").data, ("15:30").data,
          ("Salle A, étage 2").data⟩] := by
  rw [C2_timed_single_day_round_trip ⟨2026, 1, 2⟩ ⟨2026, 7, 14⟩ _ 14 0 15 30
      (by decide) (by decide) (by decide) (by decide) (by decide)
      rfl rfl rfl rfl (by decide) (by decide) (by decide) (by decide)
      (by decide) (by decide)]
  rfl
